import Mathlib

/-!
# Screen-cell data model and SGR translation of tvision

Shallow embedding of

* `include/tvision/scrncell.h`: `TCellAttribs`, `TCellChar`, `TScreenCellA`,
  `TScreenCell`;
* `include/tvision/internal/textattr.h`: `swapRedBlue`, `SGRAttribs`;
* `include/internal/buffdisp.h`: the data members of `BufferedDisplay`.

Machine integers are natural numbers with an explicit reduction modulo
`2 ^ w` wherever the C++ code narrows a value.
-/

/-! ## TCellAttribs -/

/-- The sixteen bits of a `TCellAttribs` object, in declaration order.  The
bit-fields are allocated from the least significant bit of each byte, so
`fgBlue` is bit 0 of the raw 16-bit value and `reverse` is bit 13.
`reserved` is bit 14 and `pad` is the bit of the second byte that no
bit-field names (bit 15); both are carried along by the `memcpy`
conversions of `trivially_convertible<uint16_t>`. -/
structure TCellAttribs where
  fgBlue : Bool
  fgGreen : Bool
  fgRed : Bool
  fgBright : Bool
  bgBlue : Bool
  bgGreen : Bool
  bgRed : Bool
  bgBright : Bool
  fgDefault : Bool
  bgDefault : Bool
  bold : Bool
  italic : Bool
  underline : Bool
  reverse : Bool
  reserved : Bool
  pad : Bool
deriving DecidableEq, Repr

namespace TCellAttribs

/-- Conversion `operator uint16_t() const` of `trivially_convertible`: the
object representation read as a 16-bit integer. -/
def toRaw (c : TCellAttribs) : Nat :=
  c.fgBlue.toNat + 2 * c.fgGreen.toNat + 4 * c.fgRed.toNat + 8 * c.fgBright.toNat
    + 16 * c.bgBlue.toNat + 32 * c.bgGreen.toNat + 64 * c.bgRed.toNat
    + 128 * c.bgBright.toNat
    + 256 * c.fgDefault.toNat + 512 * c.bgDefault.toNat + 1024 * c.bold.toNat
    + 2048 * c.italic.toNat + 4096 * c.underline.toNat + 8192 * c.reverse.toNat
    + 16384 * c.reserved.toNat + 32768 * c.pad.toNat

/-- Construction `trivially_convertible(uint16_t)` / `operator=(uint16_t)`:
the low sixteen bits of `v` copied into the object.  A wider argument is
narrowed to `uint16_t` by the implicit conversion, which is why only bits
0..15 of `v` are looked at. -/
def ofRaw (v : Nat) : TCellAttribs where
  fgBlue := v.testBit 0
  fgGreen := v.testBit 1
  fgRed := v.testBit 2
  fgBright := v.testBit 3
  bgBlue := v.testBit 4
  bgGreen := v.testBit 5
  bgRed := v.testBit 6
  bgBright := v.testBit 7
  fgDefault := v.testBit 8
  bgDefault := v.testBit 9
  bold := v.testBit 10
  italic := v.testBit 11
  underline := v.testBit 12
  reverse := v.testBit 13
  reserved := v.testBit 14
  pad := v.testBit 15

/-- Method `fgGet`: `uint8_t(*this) & 0x0F`, returned as `uint8_t`. -/
def fgGet (c : TCellAttribs) : Nat :=
  ((c.toRaw % 256) &&& 0x0F) % 256

/-- Method `bgGet`: `uint8_t(*this) >> 4`, returned as `uint8_t`. -/
def bgGet (c : TCellAttribs) : Nat :=
  ((c.toRaw % 256) >>> 4) % 256

/-- Method `fgSet(uint8_t fg)`.  `~0x0F` is the 32-bit `int` constant whose
bit pattern is `0xFFFFFFF0`; the result of the expression is narrowed to
sixteen bits when it is stored. -/
def fgSet (c : TCellAttribs) (fg : Fin 256) : TCellAttribs :=
  let c1 := if fg.val ≠ c.fgGet then { c with fgDefault := false } else c
  ofRaw (((c1.toRaw &&& 0xFFFFFFF0) ||| (fg.val &&& 0x0F)) % 65536)

/-- Method `bgSet(uint8_t bg)`, with `~0xF0` the bit pattern `0xFFFFFF0F`. -/
def bgSet (c : TCellAttribs) (bg : Fin 256) : TCellAttribs :=
  let c1 := if bg.val ≠ c.bgGet then { c with bgDefault := false } else c
  ofRaw (((c1.toRaw &&& 0xFFFFFF0F) ||| ((bg.val &&& 0x0F) <<< 4)) % 65536)

/-- Method `attrSet(TCellAttribs other)`, with `~0xFF00` the bit pattern
`0xFFFF00FF`. -/
def attrSet (c other : TCellAttribs) : TCellAttribs :=
  ofRaw (((c.toRaw &&& 0xFFFF00FF) ||| (other.toRaw &&& 0xFF00)) % 65536)

end TCellAttribs

/-! ## SGR translation -/

/-- Function `swapRedBlue` of `textattr.h`. -/
def swapRedBlue (c : TCellAttribs) : TCellAttribs :=
  let fgAux := c.fgBlue
  let c := { c with fgBlue := c.fgRed }
  let c := { c with fgRed := fgAux }
  let bgAux := c.bgBlue
  let c := { c with bgBlue := c.bgRed }
  let c := { c with bgRed := bgAux }
  c

def sgrBrightIsBold : Nat := 0x0001
def sgrBrightIsBlink : Nat := 0x0002
def sgrNoItalic : Nat := 0x0004
def sgrNoUnderline : Nat := 0x0008

/-- The seven `uchar` members of `SGRAttribs`. -/
structure SGRAttribs where
  fg : Nat
  bg : Nat
  bold : Nat
  italic : Nat
  underline : Nat
  blink : Nat
  reverse : Nat
deriving DecidableEq, Repr

namespace SGRAttribs

/-- Constructor `SGRAttribs(defaultInit)`. -/
def defaultInit : SGRAttribs where
  fg := 30
  bg := 40
  bold := 22
  italic := 23
  underline := 24
  blink := 25
  reverse := 27

/-- Constructor `SGRAttribs(TCellAttribs c, uint flags)`.  Every `+=` on a
`uchar` member is reduced modulo 256. -/
def ofAttribs (c : TCellAttribs) (flags : Nat) : SGRAttribs :=
  let s := defaultInit
  let c := swapRedBlue c
  let s := if c.fgDefault then { s with fg := 39 }
    else { s with fg := (s.fg + (c.fgGet &&& 0x07)) % 256 }
  let s := if c.bgDefault then { s with bg := 49 }
    else { s with bg := (s.bg + (c.bgGet &&& 0x07)) % 256 }
  let s := if c.fgBright then
      (if flags &&& sgrBrightIsBold ≠ 0 then { s with bold := 1 }
       else { s with fg := (s.fg + 60) % 256 })
    else s
  let s := if c.bgBright then
      (if flags &&& sgrBrightIsBlink ≠ 0 then { s with blink := 5 }
       else { s with bg := (s.bg + 60) % 256 })
    else s
  let s := if c.bold then { s with bold := 1 } else s
  let s := if ¬ (flags &&& sgrNoItalic ≠ 0) ∧ c.italic then { s with italic := 3 } else s
  let s := if ¬ (flags &&& sgrNoUnderline ≠ 0) ∧ c.underline then { s with underline := 4 }
    else s
  let s := if c.reverse then { s with reverse := 7 } else s
  s

end SGRAttribs

/-! ## TCellChar -/

/-- Struct `TCellChar`: the member `uint8_t bytes[12]`. -/
structure TCellChar where
  bytes : Fin 12 → Fin 256

namespace TCellChar

/-- The call `memcpy(&bytes[off], src.data(), n)` on the twelve bytes of a
run: bytes `off .. off + n - 1` are replaced by the first `n` bytes of
`src`, every other byte is kept. -/
def memcpy (dst : Fin 12 → Fin 256) (off : Nat) (src : List (Fin 256)) (n : Nat) :
    Fin 12 → Fin 256 :=
  fun i => if off ≤ i.val ∧ i.val < off + n then src.getD (i.val - off) 0 else dst i

/-- The loop `while (++i < sizeof(bytes) && bytes[i]);` of `size`, started
with the given value of `i`; the result is the value of `i` when the loop
exits.  `fuel` bounds the number of evaluations of the loop condition. -/
def sizeLoop (bytes : Fin 12 → Fin 256) : Nat → Nat → Nat
  | 0, i => i
  | fuel + 1, i =>
    let i := i + 1
    if h : i < 12 then
      if bytes ⟨i, h⟩ ≠ 0 then sizeLoop bytes fuel i else i
    else i

/-- Method `size`: `size_t i = 0; while (++i < sizeof(bytes) && bytes[i]); return i;`.
Twelve evaluations of the loop condition always suffice
(`TCellChar.sizeLoop_fuel`). -/
def size (c : TCellChar) : Nat :=
  sizeLoop c.bytes 12 0

/-- Method `append(TStringView text)`.  `sizeof(bytes) - sz` is computed in
`size_t`, that is modulo `2 ^ 64`. -/
def append (c : TCellChar) (text : List (Fin 256)) : TCellChar :=
  let sz := c.size
  if text.length ≤ (12 + 2 ^ 64 - sz) % 2 ^ 64 then
    { bytes := memcpy c.bytes sz text text.length }
  else c

/-- The position of the first zero byte of a run, in the words of the
specification: `L` is at most 12, no byte before index `L` is zero, and the
byte at index `L`, when there is one, is zero (so `L = 12` exactly when no
byte is zero). -/
def IsFirstZero (c : TCellChar) (L : Nat) : Prop :=
  L ≤ 12 ∧ (∀ j : Fin 12, j.val < L → c.bytes j ≠ 0) ∧ (∀ j : Fin 12, j.val = L → c.bytes j = 0)

/-- A run that is zero-terminated or full, in the words of the
specification: every byte after a zero byte is zero. -/
def ZeroTerminated (c : TCellChar) : Prop :=
  ∀ i j : Fin 12, c.bytes i = 0 → i ≤ j → c.bytes j = 0

instance (c : TCellChar) (L : Nat) : Decidable (IsFirstZero c L) := by
  unfold IsFirstZero; infer_instance

instance (c : TCellChar) : Decidable (ZeroTerminated c) := by
  unfold ZeroTerminated; infer_instance

/-- The run whose twelve bytes are zero. -/
def empty : TCellChar where
  bytes := fun _ => 0

end TCellChar

/-- The bytes the specification expects after an append that fits: the
first `L` bytes of the run, followed by the bytes of `t`, followed by
zeros. -/
def TCellChar.appended (c : TCellChar) (L : Nat) (t : List (Fin 256)) : Fin 12 → Fin 256 :=
  fun i =>
    if i.val < L then c.bytes i
    else if i.val < L + t.length then t.getD (i.val - L) 0
    else 0

/-! ## TCellAttribs: construction from colour and flags -/

def afFgDefault : Nat := 0x0001
def afBgDefault : Nat := 0x0002
def afBold : Nat := 0x0004
def afItalic : Nat := 0x0008
def afUnderline : Nat := 0x0010
def afReverse : Nat := 0x0020

/-- Constructor `TCellAttribs(uint8_t color, ushort flags)`:
`*this = color | (flags << 8)`.  The operands are promoted to the 32-bit
`int`, in which `flags << 8` does not overflow; the assignment narrows the
result to sixteen bits. -/
def TCellAttribs.ofColorFlags (color : Fin 256) (flags : Fin 65536) : TCellAttribs :=
  TCellAttribs.ofRaw ((color.val ||| (flags.val <<< 8)) % 2 ^ 32)

/-! ## TCellChar: assignment -/

namespace TCellChar

/-- The call `memset(this, 0, sizeof(*this))` on the twelve bytes of a run. -/
def memsetZero (_dst : Fin 12 → Fin 256) : Fin 12 → Fin 256 :=
  fun _ => 0

/-- The first `n` bytes of the object representation of an unsigned
integer on a little-endian target, least significant byte first. -/
def littleEndianBytes : Nat → Nat → List (Fin 256)
  | 0, _ => []
  | n + 1, v => ⟨v % 256, Nat.mod_lt v (by decide)⟩ :: littleEndianBytes n (v / 256)

/-- Operator `operator=(uint64_t ch)`: `memset(this, 0, sizeof(*this));
memcpy(bytes, &ch, min(sizeof(bytes), sizeof(ch)));`.  The argument is
converted to `uint64_t`, that is reduced modulo `2 ^ 64`. -/
def assignCh (c : TCellChar) (ch : Nat) : TCellChar :=
  let b := memsetZero c.bytes
  { bytes := memcpy b 0 (littleEndianBytes 8 (ch % 2 ^ 64)) (min 12 8) }

/-- Operator `operator=(TStringView text)`: `memset(this, 0, sizeof(*this));
if (text.size() <= sizeof(bytes)) memcpy(bytes, text.data(), text.size());`. -/
def assignText (c : TCellChar) (text : List (Fin 256)) : TCellChar :=
  let b := memsetZero c.bytes
  if text.length ≤ 12 then { bytes := memcpy b 0 text text.length }
  else { bytes := b }

/-- The loop of `size` with a record of the indices at which `bytes[i]` is
evaluated: the condition `++i < sizeof(bytes) && bytes[i]` reads `bytes[i]`
only when `i < sizeof(bytes)` holds.  The result is the final value of `i`
together with the indices read, in order. -/
def sizeLoopReads (bytes : Fin 12 → Fin 256) : Nat → Nat → Nat × List Nat
  | 0, i => (i, [])
  | fuel + 1, i =>
    let i := i + 1
    if h : i < 12 then
      if bytes ⟨i, h⟩ ≠ 0 then
        ((sizeLoopReads bytes fuel i).1, i :: (sizeLoopReads bytes fuel i).2)
      else (i, [i])
    else (i, [])

/-- The guard `text.size() <= sizeof(bytes) - sz` of `append`, under which
`memcpy(&bytes[sz], text.data(), text.size())` is executed. -/
def appendCopies (c : TCellChar) (text : List (Fin 256)) : Prop :=
  text.length ≤ (12 + 2 ^ 64 - c.size) % 2 ^ 64

/-- The guard `text.size() <= sizeof(bytes)` of `operator=(TStringView)`,
under which `memcpy(bytes, text.data(), text.size())` is executed. -/
def assignTextCopies (text : List (Fin 256)) : Prop :=
  text.length ≤ 12

instance (c : TCellChar) (text : List (Fin 256)) : Decidable (appendCopies c text) := by
  unfold appendCopies; infer_instance

instance (text : List (Fin 256)) : Decidable (assignTextCopies text) := by
  unfold assignTextCopies; infer_instance

end TCellChar

/-! ## TScreenCell -/

/-- Struct `TScreenCellA`: the legacy cell, one byte of character and one
byte of attribute. -/
structure TScreenCellA where
  Char : Fin 256
  Attr : Fin 256

/-- Struct `TScreenCell`: glyph run, attributes and the 16-bit member
`extraWidth`. -/
structure TScreenCell where
  Char : TCellChar
  Attr : TCellAttribs
  extraWidth : Nat

namespace TScreenCell

/-- The value-initialised cell `{}`: every byte of the object is zero. -/
def zero : TScreenCell where
  Char := TCellChar.empty
  Attr := TCellAttribs.ofRaw 0
  extraWidth := 0

/-- Constructor `TScreenCell(TScreenCellA pair)`: `*this = {}; Char = pair.Char;
Attr = pair.Attr;`.  The assignment to `Char` selects `operator=(uint64_t)`,
the assignment to `Attr` converts the byte through the inherited
constructor from `uint16_t`. -/
def ofTScreenCellA (pair : TScreenCellA) : TScreenCell :=
  let c := zero
  let c := { c with Char := c.Char.assignCh pair.Char.val }
  let c := { c with Attr := TCellAttribs.ofRaw pair.Attr.val }
  c

end TScreenCell

/-! ## BufferedDisplay

The header `include/internal/buffdisp.h` declares the data members and the
signatures of `BufferedDisplay`; the bodies of its member functions are not
part of the sources at hand and are modelled from the specification. -/

namespace BufferedDisplay

/-- One call of a pure virtual hook of `BufferedDisplay`:
`lowlevelWriteChar(x, y, character, attr)`, `lowlevelMoveCursor(x, y)` or
`lowlevelFlush()`. -/
inductive Hook where
  | writeChar (x y : Nat) (character : Fin 256) (attr : Fin 65536)
  | moveCursor (x y : Nat)
  | flush
deriving DecidableEq, Repr

/-- The data members of class `BufferedDisplay`.  The two `Array2D` grids
are indexed by the coordinate `(x, y)` and carry their dimensions;
`changes` is the `std::set` of coordinates `(x, y)`, represented by the
sequence of its elements in the order in which the set is traversed.
Coordinates are natural numbers: the specification only considers valid
0-based coordinates. -/
structure State where
  width : Nat
  height : Nat
  charBuffer : Nat × Nat → Fin 256
  attrBuffer : Nat × Nat → Fin 65536
  changes : List (Nat × Nat)
  lastX : Nat
  lastY : Nat
  needsFlush : Bool
  cursorMoved : Bool

/-- Modelled from the spec: the order in which the dirty set is traversed.
The header fixes the element type `std::pair<int, int>`; which component the
missing function bodies store first is not in the sources.  Row-major:
ascending row `y`, then ascending column `x` within a row. -/
def rowMajorLt (a b : Nat × Nat) : Prop :=
  a.2 < b.2 ∨ (a.2 = b.2 ∧ a.1 < b.1)

instance : DecidableRel rowMajorLt := fun a b => by
  unfold rowMajorLt; infer_instance

instance : IsIrrefl (Nat × Nat) rowMajorLt :=
  ⟨fun a h => by unfold rowMajorLt at h; omega⟩

instance : IsAntisymm (Nat × Nat) rowMajorLt :=
  ⟨fun a b h1 h2 => by unfold rowMajorLt at h1 h2; omega⟩

/-- Modelled from the spec: insertion of a coordinate into the ordered set
of distinct coordinates `changes` (the call `changes.insert` of the missing
function bodies). -/
def insertChange (c : Nat × Nat) : List (Nat × Nat) → List (Nat × Nat)
  | [] => [c]
  | d :: ds =>
    if c = d then d :: ds
    else if rowMajorLt c d then c :: d :: ds
    else d :: insertChange c ds

/-- The coordinates of a `w` by `h` screen in row-major order, in the words
of the specification: ascending row, then ascending column within a row. -/
def rowMajor (w h : Nat) : List (Nat × Nat) :=
  (List.range h).flatMap (fun y => (List.range w).map (fun x => (x, y)))

/-- The coordinates of a `w` by `h` screen column by column, the order in
which the model of `initBuffer` marks them. -/
def columnMajor (w h : Nat) : List (Nat × Nat) :=
  (List.range w).flatMap (fun x => (List.range h).map (fun y => (x, y)))

/-- Modelled from the spec: `initBuffer`, whose body is not in the sources:
it (re)allocates both grids to the given dimensions, clears the dirty set,
then marks every coordinate dirty.  The cells of the fresh grids are zero
here, and the coordinates are marked column by column; the specification
fixes neither. -/
def initBuffer (s : State) (w h : Nat) : State :=
  { s with
    width := w
    height := h
    charBuffer := fun _ => 0
    attrBuffer := fun _ => 0
    changes := (columnMajor w h).foldl (fun acc c => insertChange c acc) [] }

/-- Modelled from the spec: the step of `screenWrite` for one column, whose
body is not in the sources: the supplied glyph and attribute are compared
with the recorded ones, and only when they differ the grids are updated and
`(x, y)` is inserted into the dirty set. -/
def writeCell (s : State) (x y : Nat) (cell : Fin 256 × Fin 65536) : State :=
  if cell.1 ≠ s.charBuffer (x, y) ∨ cell.2 ≠ s.attrBuffer (x, y) then
    { s with
      charBuffer := Function.update s.charBuffer (x, y) cell.1
      attrBuffer := Function.update s.attrBuffer (x, y) cell.2
      changes := insertChange (x, y) s.changes }
  else s

/-- Modelled from the spec: the loop of `screenWrite` over the consecutive
columns starting at `(x, y)`. -/
def writeCells (s : State) (x y : Nat) : List (Fin 256 × Fin 65536) → State
  | [] => s
  | cell :: cells => writeCells (writeCell s x y cell) (x + 1) y cells

/-- Modelled from the spec: `screenWrite(x, y, buf, len)`, whose body is not
in the sources.  Writing outside the current grid bounds is a contract
violation for which the specification asks to fail fast: the result is
`none`. -/
def screenWrite (s : State) (x y : Nat) (cells : List (Fin 256 × Fin 65536)) :
    Option State :=
  if y < s.height ∧ x + cells.length ≤ s.width then some (writeCells s x y cells)
  else none

/-- Modelled from the spec: `setCaretPosition(x, y)`, whose body is not in
the sources: it records the desired cursor location and flags that the
cursor may need a move. -/
def setCaretPosition (s : State) (x y : Nat) : State :=
  { s with lastX := x, lastY := y, cursorMoved := true }

/-- Modelled from the spec: the hook calls of `flushScreen` for the dirty
cells, visited in the order of the set.  `prev` is the coordinate of the
previous write of this flush; the cursor-move hook is called only when the
cell is not immediately to the right of it. -/
def flushCells (s : State) : Option (Nat × Nat) → List (Nat × Nat) → List Hook
  | _, [] => []
  | prev, (x, y) :: rest =>
    let adjacent : Bool :=
      match prev with
      | some (px, py) => decide (py = y ∧ px + 1 = x)
      | none => false
    (if adjacent then [] else [Hook.moveCursor x y])
      ++ Hook.writeChar x y (s.charBuffer (x, y)) (s.attrBuffer (x, y))
        :: flushCells s (some (x, y)) rest

/-- Modelled from the spec: `flushScreen()`, whose body is not in the
sources.  With no dirty cell and no pending cursor move it returns at once;
otherwise it writes the dirty cells, moves the cursor to the requested caret
position if one was requested, calls the flush hook once, and clears the
dirty set and the pending flags.  The result is the new state and the
sequence of hook calls. -/
def flushScreen (s : State) : State × List Hook :=
  if s.changes = [] ∧ s.cursorMoved = false then (s, [])
  else
    ({ s with changes := [], needsFlush := false, cursorMoved := false },
      flushCells s none s.changes
        ++ (if s.cursorMoved then [Hook.moveCursor s.lastX s.lastY] else [])
        ++ [Hook.flush])

/-- The coordinates of the write-char calls in a sequence of hook calls. -/
def writeCharCalls : List Hook → List (Nat × Nat)
  | [] => []
  | Hook.writeChar x y _ _ :: hs => (x, y) :: writeCharCalls hs
  | _ :: hs => writeCharCalls hs

/-- A display state before `initBuffer`: no grid, nothing dirty. -/
def uninitialized : State where
  width := 0
  height := 0
  charBuffer := fun _ => 0
  attrBuffer := fun _ => 0
  changes := []
  lastX := 0
  lastY := 0
  needsFlush := false
  cursorMoved := false

end BufferedDisplay

namespace BufferedDisplay

/-- The display state after `initBuffer(w, h)` on an uninitialized display
followed by one `flushScreen()`: initialized and flushed. -/
def flushed (w h : Nat) : State :=
  (flushScreen (initBuffer uninitialized w h)).1

end BufferedDisplay

/-! ## Auxiliary facts about the bit operations -/

theorem and_seven (x : Nat) : x &&& 7 = x % 8 :=
  Nat.and_pow_two_sub_one_eq_mod x 3

theorem and_fifteen (x : Nat) : x &&& 15 = x % 16 :=
  Nat.and_pow_two_sub_one_eq_mod x 4

theorem shiftRight_four (x : Nat) : x >>> 4 = x / 16 :=
  Nat.shiftRight_eq_div_pow x 4

/-- The low three bits of the foreground nibble after the red/blue swap. -/
theorem fgGet_swapRedBlue (c : TCellAttribs) :
    (swapRedBlue c).fgGet &&& 0x07
      = c.fgRed.toNat + 2 * c.fgGreen.toNat + 4 * c.fgBlue.toNat := by
  have h0 := Bool.toNat_le c.fgBlue
  have h1 := Bool.toNat_le c.fgGreen
  have h2 := Bool.toNat_le c.fgRed
  simp only [TCellAttribs.fgGet, swapRedBlue, TCellAttribs.toRaw, and_seven, and_fifteen]
  omega

/-- The low three bits of the background nibble after the red/blue swap. -/
theorem bgGet_swapRedBlue (c : TCellAttribs) :
    (swapRedBlue c).bgGet &&& 0x07
      = c.bgRed.toNat + 2 * c.bgGreen.toNat + 4 * c.bgBlue.toNat := by
  have h0 := Bool.toNat_le c.bgBlue
  have h1 := Bool.toNat_le c.bgGreen
  have h2 := Bool.toNat_le c.bgRed
  have h3 := Bool.toNat_le c.fgBlue
  have h4 := Bool.toNat_le c.fgGreen
  have h5 := Bool.toNat_le c.fgRed
  have h6 := Bool.toNat_le c.fgBright
  simp only [TCellAttribs.bgGet, swapRedBlue, TCellAttribs.toRaw, and_seven, shiftRight_four]
  omega

/-! ## The translated codes, member by member -/

theorem swapRedBlue_fgDefault (c : TCellAttribs) :
    (swapRedBlue c).fgDefault = c.fgDefault := rfl

theorem swapRedBlue_bgDefault (c : TCellAttribs) :
    (swapRedBlue c).bgDefault = c.bgDefault := rfl

theorem swapRedBlue_fgBright (c : TCellAttribs) :
    (swapRedBlue c).fgBright = c.fgBright := rfl

theorem swapRedBlue_bgBright (c : TCellAttribs) :
    (swapRedBlue c).bgBright = c.bgBright := rfl

theorem swapRedBlue_bold (c : TCellAttribs) : (swapRedBlue c).bold = c.bold := rfl

theorem swapRedBlue_italic (c : TCellAttribs) : (swapRedBlue c).italic = c.italic := rfl

theorem swapRedBlue_underline (c : TCellAttribs) :
    (swapRedBlue c).underline = c.underline := rfl

theorem swapRedBlue_reverse (c : TCellAttribs) : (swapRedBlue c).reverse = c.reverse := rfl

namespace SGRAttribs

theorem ofAttribs_fg (c : TCellAttribs) (flags : Nat) :
    (ofAttribs c flags).fg =
      if c.fgDefault then (if c.fgBright ∧ flags &&& sgrBrightIsBold = 0 then 99 else 39)
      else 30 + (c.fgRed.toNat + 2 * c.fgGreen.toNat + 4 * c.fgBlue.toNat)
        + (if c.fgBright ∧ flags &&& sgrBrightIsBold = 0 then 60 else 0) := by
  have h0 := Bool.toNat_le c.fgBlue
  have h1 := Bool.toNat_le c.fgGreen
  have h2 := Bool.toNat_le c.fgRed
  simp only [ofAttribs, apply_ite SGRAttribs.fg, defaultInit, ite_self, fgGet_swapRedBlue,
    swapRedBlue_fgDefault, swapRedBlue_fgBright]
  have hn : c.fgRed.toNat + 2 * c.fgGreen.toNat + 4 * c.fgBlue.toNat ≤ 7 := by omega
  generalize c.fgRed.toNat + 2 * c.fgGreen.toNat + 4 * c.fgBlue.toNat = n at hn ⊢
  cases c.fgDefault <;> cases c.fgBright <;>
    by_cases hk : flags &&& sgrBrightIsBold = 0 <;> simp [hk] <;> omega

theorem ofAttribs_bg (c : TCellAttribs) (flags : Nat) :
    (ofAttribs c flags).bg =
      if c.bgDefault then (if c.bgBright ∧ flags &&& sgrBrightIsBlink = 0 then 109 else 49)
      else 40 + (c.bgRed.toNat + 2 * c.bgGreen.toNat + 4 * c.bgBlue.toNat)
        + (if c.bgBright ∧ flags &&& sgrBrightIsBlink = 0 then 60 else 0) := by
  have h0 := Bool.toNat_le c.bgBlue
  have h1 := Bool.toNat_le c.bgGreen
  have h2 := Bool.toNat_le c.bgRed
  simp only [ofAttribs, apply_ite SGRAttribs.bg, defaultInit, ite_self, bgGet_swapRedBlue,
    swapRedBlue_bgDefault, swapRedBlue_bgBright]
  have hn : c.bgRed.toNat + 2 * c.bgGreen.toNat + 4 * c.bgBlue.toNat ≤ 7 := by omega
  generalize c.bgRed.toNat + 2 * c.bgGreen.toNat + 4 * c.bgBlue.toNat = n at hn ⊢
  cases c.bgDefault <;> cases c.bgBright <;>
    by_cases hk : flags &&& sgrBrightIsBlink = 0 <;> simp [hk] <;> omega

theorem ofAttribs_bold (c : TCellAttribs) (flags : Nat) :
    (ofAttribs c flags).bold =
      if c.bold ∨ (c.fgBright ∧ flags &&& sgrBrightIsBold ≠ 0) then 1 else 22 := by
  simp only [ofAttribs, apply_ite SGRAttribs.bold, defaultInit, ite_self,
    swapRedBlue_bold, swapRedBlue_fgBright]
  cases c.bold <;> cases c.fgBright <;>
    by_cases hk : flags &&& sgrBrightIsBold = 0 <;> simp [hk]

theorem ofAttribs_italic (c : TCellAttribs) (flags : Nat) :
    (ofAttribs c flags).italic = if c.italic ∧ flags &&& sgrNoItalic = 0 then 3 else 23 := by
  simp only [ofAttribs, apply_ite SGRAttribs.italic, defaultInit, ite_self,
    swapRedBlue_italic]
  cases c.italic <;> by_cases hk : flags &&& sgrNoItalic = 0 <;> simp [hk]

theorem ofAttribs_underline (c : TCellAttribs) (flags : Nat) :
    (ofAttribs c flags).underline
      = if c.underline ∧ flags &&& sgrNoUnderline = 0 then 4 else 24 := by
  simp only [ofAttribs, apply_ite SGRAttribs.underline, defaultInit, ite_self,
    swapRedBlue_underline]
  cases c.underline <;> by_cases hk : flags &&& sgrNoUnderline = 0 <;> simp [hk]

theorem ofAttribs_blink (c : TCellAttribs) (flags : Nat) :
    (ofAttribs c flags).blink =
      if c.bgBright ∧ flags &&& sgrBrightIsBlink ≠ 0 then 5 else 25 := by
  simp only [ofAttribs, apply_ite SGRAttribs.blink, defaultInit, ite_self,
    swapRedBlue_bgBright]
  cases c.bgBright <;> by_cases hk : flags &&& sgrBrightIsBlink = 0 <;> simp [hk]

theorem ofAttribs_reverse (c : TCellAttribs) (flags : Nat) :
    (ofAttribs c flags).reverse = if c.reverse then 7 else 27 := by
  simp only [ofAttribs, apply_ite SGRAttribs.reverse, defaultInit, ite_self,
    swapRedBlue_reverse]

end SGRAttribs

/-! ## Raw bits of a TCellAttribs -/

namespace TCellAttribs

/-- Every bit-field contributes 0 or 1. -/
theorem toNat_fields_le (c : TCellAttribs) :
    c.fgBlue.toNat ≤ 1 ∧ c.fgGreen.toNat ≤ 1 ∧ c.fgRed.toNat ≤ 1 ∧ c.fgBright.toNat ≤ 1 ∧
    c.bgBlue.toNat ≤ 1 ∧ c.bgGreen.toNat ≤ 1 ∧ c.bgRed.toNat ≤ 1 ∧ c.bgBright.toNat ≤ 1 ∧
    c.fgDefault.toNat ≤ 1 ∧ c.bgDefault.toNat ≤ 1 ∧ c.bold.toNat ≤ 1 ∧ c.italic.toNat ≤ 1 ∧
    c.underline.toNat ≤ 1 ∧ c.reverse.toNat ≤ 1 ∧ c.reserved.toNat ≤ 1 ∧ c.pad.toNat ≤ 1 :=
  ⟨Bool.toNat_le _, Bool.toNat_le _, Bool.toNat_le _, Bool.toNat_le _, Bool.toNat_le _,
   Bool.toNat_le _, Bool.toNat_le _, Bool.toNat_le _, Bool.toNat_le _, Bool.toNat_le _,
   Bool.toNat_le _, Bool.toNat_le _, Bool.toNat_le _, Bool.toNat_le _, Bool.toNat_le _,
   Bool.toNat_le _⟩

theorem toRaw_lt (c : TCellAttribs) : c.toRaw < 65536 := by
  have h := toNat_fields_le c
  unfold toRaw
  omega

/-- A bit of a number, read arithmetically. -/
theorem testBit_eq_of_div_mod (x i : Nat) (b : Bool) (h : x / 2 ^ i % 2 = b.toNat) :
    x.testBit i = b := by
  rw [Nat.testBit_to_div_mod, h]
  cases b <;> simp

theorem testBit_toRaw_0 (c : TCellAttribs) : c.toRaw.testBit 0 = c.fgBlue := by
  have h := toNat_fields_le c
  apply testBit_eq_of_div_mod
  unfold toRaw
  omega

theorem testBit_toRaw_1 (c : TCellAttribs) : c.toRaw.testBit 1 = c.fgGreen := by
  have h := toNat_fields_le c
  apply testBit_eq_of_div_mod
  unfold toRaw
  omega

theorem testBit_toRaw_2 (c : TCellAttribs) : c.toRaw.testBit 2 = c.fgRed := by
  have h := toNat_fields_le c
  apply testBit_eq_of_div_mod
  unfold toRaw
  omega

theorem testBit_toRaw_3 (c : TCellAttribs) : c.toRaw.testBit 3 = c.fgBright := by
  have h := toNat_fields_le c
  apply testBit_eq_of_div_mod
  unfold toRaw
  omega

theorem testBit_toRaw_4 (c : TCellAttribs) : c.toRaw.testBit 4 = c.bgBlue := by
  have h := toNat_fields_le c
  apply testBit_eq_of_div_mod
  unfold toRaw
  omega

theorem testBit_toRaw_5 (c : TCellAttribs) : c.toRaw.testBit 5 = c.bgGreen := by
  have h := toNat_fields_le c
  apply testBit_eq_of_div_mod
  unfold toRaw
  omega

theorem testBit_toRaw_6 (c : TCellAttribs) : c.toRaw.testBit 6 = c.bgRed := by
  have h := toNat_fields_le c
  apply testBit_eq_of_div_mod
  unfold toRaw
  omega

theorem testBit_toRaw_7 (c : TCellAttribs) : c.toRaw.testBit 7 = c.bgBright := by
  have h := toNat_fields_le c
  apply testBit_eq_of_div_mod
  unfold toRaw
  omega

theorem testBit_toRaw_8 (c : TCellAttribs) : c.toRaw.testBit 8 = c.fgDefault := by
  have h := toNat_fields_le c
  apply testBit_eq_of_div_mod
  unfold toRaw
  omega

theorem testBit_toRaw_9 (c : TCellAttribs) : c.toRaw.testBit 9 = c.bgDefault := by
  have h := toNat_fields_le c
  apply testBit_eq_of_div_mod
  unfold toRaw
  omega

theorem testBit_toRaw_10 (c : TCellAttribs) : c.toRaw.testBit 10 = c.bold := by
  have h := toNat_fields_le c
  apply testBit_eq_of_div_mod
  unfold toRaw
  omega

theorem testBit_toRaw_11 (c : TCellAttribs) : c.toRaw.testBit 11 = c.italic := by
  have h := toNat_fields_le c
  apply testBit_eq_of_div_mod
  unfold toRaw
  omega

theorem testBit_toRaw_12 (c : TCellAttribs) : c.toRaw.testBit 12 = c.underline := by
  have h := toNat_fields_le c
  apply testBit_eq_of_div_mod
  unfold toRaw
  omega

theorem testBit_toRaw_13 (c : TCellAttribs) : c.toRaw.testBit 13 = c.reverse := by
  have h := toNat_fields_le c
  apply testBit_eq_of_div_mod
  unfold toRaw
  omega

theorem testBit_toRaw_14 (c : TCellAttribs) : c.toRaw.testBit 14 = c.reserved := by
  have h := toNat_fields_le c
  apply testBit_eq_of_div_mod
  unfold toRaw
  omega

theorem testBit_toRaw_15 (c : TCellAttribs) : c.toRaw.testBit 15 = c.pad := by
  have h := toNat_fields_le c
  apply testBit_eq_of_div_mod
  unfold toRaw
  omega

theorem testBit_mod_65536 (x i : Nat) :
    (x % 65536).testBit i = (decide (i < 16) && x.testBit i) :=
  Nat.testBit_mod_two_pow x 16 i

/-- Method `attrSet`, field by field. -/
theorem attrSet_eq (c other : TCellAttribs) :
    c.attrSet other =
      { c with
        fgDefault := other.fgDefault, bgDefault := other.bgDefault, bold := other.bold,
        italic := other.italic, underline := other.underline, reverse := other.reverse,
        reserved := other.reserved, pad := other.pad } := by
  simp only [attrSet, ofRaw, testBit_mod_65536, Nat.testBit_or, Nat.testBit_and,
    testBit_toRaw_0, testBit_toRaw_1, testBit_toRaw_2, testBit_toRaw_3, testBit_toRaw_4,
    testBit_toRaw_5, testBit_toRaw_6, testBit_toRaw_7, testBit_toRaw_8, testBit_toRaw_9,
    testBit_toRaw_10, testBit_toRaw_11, testBit_toRaw_12, testBit_toRaw_13, testBit_toRaw_14,
    testBit_toRaw_15]
  simp [Nat.testBit]


theorem toNat_testBit (x i : Nat) : (x.testBit i).toNat = x / 2 ^ i % 2 := by
  rw [Nat.testBit_to_div_mod]
  rcases Nat.mod_two_eq_zero_or_one (x / 2 ^ i) with h | h <;> simp [h]

/-- Method `fgGet` is the low nibble of the raw value. -/
theorem fgGet_eq (c : TCellAttribs) : c.fgGet = c.toRaw % 16 := by
  simp only [fgGet, and_fifteen]
  omega

/-- Method `bgGet` is the second nibble of the raw value. -/
theorem bgGet_eq (c : TCellAttribs) : c.bgGet = c.toRaw / 16 % 16 := by
  simp only [bgGet, shiftRight_four]
  omega

/-- Method `fgSet`, field by field. -/
theorem fgSet_eq (c : TCellAttribs) (fg : Fin 256) :
    c.fgSet fg =
      { c with
        fgBlue := fg.val.testBit 0, fgGreen := fg.val.testBit 1, fgRed := fg.val.testBit 2,
        fgBright := fg.val.testBit 3,
        fgDefault := if fg.val ≠ c.fgGet then false else c.fgDefault } := by
  by_cases h : fg.val ≠ c.fgGet
  · unfold fgSet
    simp only [if_pos h, ofRaw, testBit_mod_65536, Nat.testBit_or, Nat.testBit_and,
      testBit_toRaw_0, testBit_toRaw_1, testBit_toRaw_2, testBit_toRaw_3, testBit_toRaw_4,
      testBit_toRaw_5, testBit_toRaw_6, testBit_toRaw_7, testBit_toRaw_8, testBit_toRaw_9,
      testBit_toRaw_10, testBit_toRaw_11, testBit_toRaw_12, testBit_toRaw_13,
      testBit_toRaw_14, testBit_toRaw_15]
    simp [Nat.testBit]
  · unfold fgSet
    simp only [if_neg h, ofRaw, testBit_mod_65536, Nat.testBit_or, Nat.testBit_and,
      testBit_toRaw_0, testBit_toRaw_1, testBit_toRaw_2, testBit_toRaw_3, testBit_toRaw_4,
      testBit_toRaw_5, testBit_toRaw_6, testBit_toRaw_7, testBit_toRaw_8, testBit_toRaw_9,
      testBit_toRaw_10, testBit_toRaw_11, testBit_toRaw_12, testBit_toRaw_13,
      testBit_toRaw_14, testBit_toRaw_15]
    simp [Nat.testBit]

/-- Method `bgSet`, field by field. -/
theorem bgSet_eq (c : TCellAttribs) (bg : Fin 256) :
    c.bgSet bg =
      { c with
        bgBlue := bg.val.testBit 0, bgGreen := bg.val.testBit 1, bgRed := bg.val.testBit 2,
        bgBright := bg.val.testBit 3,
        bgDefault := if bg.val ≠ c.bgGet then false else c.bgDefault } := by
  by_cases h : bg.val ≠ c.bgGet
  · unfold bgSet
    simp only [if_pos h, ofRaw, testBit_mod_65536, Nat.testBit_or, Nat.testBit_and,
      Nat.testBit_shiftLeft,
      testBit_toRaw_0, testBit_toRaw_1, testBit_toRaw_2, testBit_toRaw_3, testBit_toRaw_4,
      testBit_toRaw_5, testBit_toRaw_6, testBit_toRaw_7, testBit_toRaw_8, testBit_toRaw_9,
      testBit_toRaw_10, testBit_toRaw_11, testBit_toRaw_12, testBit_toRaw_13,
      testBit_toRaw_14, testBit_toRaw_15]
    simp [Nat.testBit]
  · unfold bgSet
    simp only [if_neg h, ofRaw, testBit_mod_65536, Nat.testBit_or, Nat.testBit_and,
      Nat.testBit_shiftLeft,
      testBit_toRaw_0, testBit_toRaw_1, testBit_toRaw_2, testBit_toRaw_3, testBit_toRaw_4,
      testBit_toRaw_5, testBit_toRaw_6, testBit_toRaw_7, testBit_toRaw_8, testBit_toRaw_9,
      testBit_toRaw_10, testBit_toRaw_11, testBit_toRaw_12, testBit_toRaw_13,
      testBit_toRaw_14, testBit_toRaw_15]
    simp [Nat.testBit]

/-- After `fgSet(fg)` the foreground nibble is `fg & 0x0F`. -/
theorem fgGet_fgSet (c : TCellAttribs) (fg : Fin 256) : (c.fgSet fg).fgGet = fg.val % 16 := by
  have h := toNat_fields_le c
  rw [fgGet_eq, fgSet_eq]
  simp only [toRaw, toNat_testBit]
  omega

/-- After `bgSet(bg)` the background nibble is `bg & 0x0F`. -/
theorem bgGet_bgSet (c : TCellAttribs) (bg : Fin 256) : (c.bgSet bg).bgGet = bg.val % 16 := by
  have h := toNat_fields_le c
  rw [bgGet_eq, bgSet_eq]
  simp only [toRaw, toNat_testBit]
  omega

theorem fgDefault_fgSet (c : TCellAttribs) (fg : Fin 256) :
    (c.fgSet fg).fgDefault = if fg.val ≠ c.fgGet then false else c.fgDefault := by
  rw [fgSet_eq]

theorem bgDefault_bgSet (c : TCellAttribs) (bg : Fin 256) :
    (c.bgSet bg).bgDefault = if bg.val ≠ c.bgGet then false else c.bgDefault := by
  rw [bgSet_eq]

end TCellAttribs

/-! ## Style code translation: claims C1 to C6 -/

/-- Claim C1 (evaluation at the failing input).  The attribute with raw
value `0x0388` has both use-default flags and both bright bits set; under
capability flags `0` the translation adds 60 to the default codes and
yields foreground `99` and background `109` instead of `39` and `49`. -/
theorem sgr_default_with_bright_bit :
    (TCellAttribs.ofRaw 0x0388).fgDefault = true ∧
    (TCellAttribs.ofRaw 0x0388).bgDefault = true ∧
    (SGRAttribs.ofAttribs (TCellAttribs.ofRaw 0x0388) 0).fg = 99 ∧
    (SGRAttribs.ofAttribs (TCellAttribs.ofRaw 0x0388) 0).bg = 109 := by
  decide

/-- Claim C2.  With the use-default flag and the bright bit of an axis
clear, the translated colour code is the base code (30 for foreground, 40
for background) plus `r + 2 * g + 4 * b`, where `b`, `g`, `r` are the blue,
green and red bits of that axis: red and blue are exchanged exactly once. -/
theorem sgr_color_code_swaps_red_blue (a : TCellAttribs) (flags : Nat) :
    (a.fgDefault = false → a.fgBright = false →
      (SGRAttribs.ofAttribs a flags).fg
        = 30 + a.fgRed.toNat + 2 * a.fgGreen.toNat + 4 * a.fgBlue.toNat) ∧
    (a.bgDefault = false → a.bgBright = false →
      (SGRAttribs.ofAttribs a flags).bg
        = 40 + a.bgRed.toNat + 2 * a.bgGreen.toNat + 4 * a.bgBlue.toNat) := by
  constructor
  · intro hd hb
    rw [SGRAttribs.ofAttribs_fg]
    simp [hd, hb]
    omega
  · intro hd hb
    rw [SGRAttribs.ofAttribs_bg]
    simp [hd, hb]
    omega

/-- Witness for C2: internal blue (raw bit 0) maps to 34, internal red on
the background (raw bit 6) maps to 41. -/
theorem sgr_color_code_swaps_red_blue_witness :
    (SGRAttribs.ofAttribs (TCellAttribs.ofRaw 0x41) 0).fg = 30 + 0 + 2 * 0 + 4 * 1 ∧
    (SGRAttribs.ofAttribs (TCellAttribs.ofRaw 0x41) 0).bg = 40 + 1 + 2 * 0 + 4 * 0 :=
  ⟨(sgr_color_code_swaps_red_blue (TCellAttribs.ofRaw 0x41) 0).1 (by decide) (by decide),
   (sgr_color_code_swaps_red_blue (TCellAttribs.ofRaw 0x41) 0).2 (by decide) (by decide)⟩

/-- Claim C3.  For an attribute with the foreground bright bit set and the
foreground use-default flag clear, with `n = r + 2 * g + 4 * b` the
red/blue-swapped low three bits of the foreground nibble: without
`sgrBrightIsBold` in the flags the foreground code is `30 + n + 60`; with
it the foreground code is `30 + n` and the bold code is `1`. -/
theorem sgr_bright_foreground (a : TCellAttribs) (flags : Nat)
    (hb : a.fgBright = true) (hd : a.fgDefault = false) :
    (flags &&& sgrBrightIsBold = 0 →
      (SGRAttribs.ofAttribs a flags).fg
        = 30 + (a.fgRed.toNat + 2 * a.fgGreen.toNat + 4 * a.fgBlue.toNat) + 60) ∧
    (flags &&& sgrBrightIsBold ≠ 0 →
      (SGRAttribs.ofAttribs a flags).fg
        = 30 + (a.fgRed.toNat + 2 * a.fgGreen.toNat + 4 * a.fgBlue.toNat) ∧
      (SGRAttribs.ofAttribs a flags).bold = 1) := by
  constructor
  · intro hk
    rw [SGRAttribs.ofAttribs_fg]
    simp [hd, hb, hk]
  · intro hk
    rw [SGRAttribs.ofAttribs_fg, SGRAttribs.ofAttribs_bold]
    simp [hd, hb, hk]

/-- Witness for C3: bright cyan-in-BIOS-order `0x0B` (blue, green, bright)
gives `30 + 6 + 60 = 96` without the flag, and `36` with bold on with it. -/
theorem sgr_bright_foreground_witness :
    (SGRAttribs.ofAttribs (TCellAttribs.ofRaw 0x0B) 0).fg = 30 + (0 + 2 * 1 + 4 * 1) + 60 ∧
    ((SGRAttribs.ofAttribs (TCellAttribs.ofRaw 0x0B) 1).fg = 30 + (0 + 2 * 1 + 4 * 1) ∧
      (SGRAttribs.ofAttribs (TCellAttribs.ofRaw 0x0B) 1).bold = 1) :=
  ⟨(sgr_bright_foreground (TCellAttribs.ofRaw 0x0B) 0 (by decide) (by decide)).1 (by decide),
   (sgr_bright_foreground (TCellAttribs.ofRaw 0x0B) 1 (by decide) (by decide)).2 (by decide)⟩

/-- Claim C4.  For an attribute with the background bright bit set and the
background use-default flag clear, with `n = r + 2 * g + 4 * b` the
red/blue-swapped low three bits of the background nibble: with
`sgrBrightIsBlink` in the flags the background code is `40 + n` and the
blink code is `5`; otherwise the background code is `40 + n + 60` and the
blink code is `25`. -/
theorem sgr_bright_background (a : TCellAttribs) (flags : Nat)
    (hb : a.bgBright = true) (hd : a.bgDefault = false) :
    (flags &&& sgrBrightIsBlink ≠ 0 →
      (SGRAttribs.ofAttribs a flags).bg
        = 40 + (a.bgRed.toNat + 2 * a.bgGreen.toNat + 4 * a.bgBlue.toNat) ∧
      (SGRAttribs.ofAttribs a flags).blink = 5) ∧
    (flags &&& sgrBrightIsBlink = 0 →
      (SGRAttribs.ofAttribs a flags).bg
        = 40 + (a.bgRed.toNat + 2 * a.bgGreen.toNat + 4 * a.bgBlue.toNat) + 60 ∧
      (SGRAttribs.ofAttribs a flags).blink = 25) := by
  constructor
  · intro hk
    rw [SGRAttribs.ofAttribs_bg, SGRAttribs.ofAttribs_blink]
    simp [hd, hb, hk]
  · intro hk
    rw [SGRAttribs.ofAttribs_bg, SGRAttribs.ofAttribs_blink]
    simp [hd, hb, hk]

/-- Witness for C4 at the raw attribute `0xC0` (background red and bright). -/
theorem sgr_bright_background_witness :
    ((SGRAttribs.ofAttribs (TCellAttribs.ofRaw 0xC0) 2).bg = 40 + (1 + 2 * 0 + 4 * 0) ∧
      (SGRAttribs.ofAttribs (TCellAttribs.ofRaw 0xC0) 2).blink = 5) ∧
    ((SGRAttribs.ofAttribs (TCellAttribs.ofRaw 0xC0) 0).bg = 40 + (1 + 2 * 0 + 4 * 0) + 60 ∧
      (SGRAttribs.ofAttribs (TCellAttribs.ofRaw 0xC0) 0).blink = 25) :=
  ⟨(sgr_bright_background (TCellAttribs.ofRaw 0xC0) 2 (by decide) (by decide)).1 (by decide),
   (sgr_bright_background (TCellAttribs.ofRaw 0xC0) 0 (by decide) (by decide)).2 (by decide)⟩

/-- Claim C5 as stated fails: the attribute with raw value `0` under
capability flags `0` is not translated to the default-colour codes 39 and
49. -/
theorem sgr_zero_attribute_not_default_codes :
    ¬ ((SGRAttribs.ofAttribs (TCellAttribs.ofRaw 0) 0).fg = 39 ∧
       (SGRAttribs.ofAttribs (TCellAttribs.ofRaw 0) 0).bg = 49 ∧
       (SGRAttribs.ofAttribs (TCellAttribs.ofRaw 0) 0).bold = 22 ∧
       (SGRAttribs.ofAttribs (TCellAttribs.ofRaw 0) 0).italic = 23 ∧
       (SGRAttribs.ofAttribs (TCellAttribs.ofRaw 0) 0).underline = 24 ∧
       (SGRAttribs.ofAttribs (TCellAttribs.ofRaw 0) 0).blink = 25 ∧
       (SGRAttribs.ofAttribs (TCellAttribs.ofRaw 0) 0).reverse = 27) := by
  decide

/-- Claim C5 as amended.  The attribute with raw value `0` under capability
flags `0` is translated to the values of `SGRAttribs(defaultInit)`:
foreground 30 (black), background 40 (black), bold 22, italic 23,
underline 24, blink 25, reverse 27. -/
theorem sgr_zero_attribute_codes :
    SGRAttribs.ofAttribs (TCellAttribs.ofRaw 0) 0 = SGRAttribs.defaultInit ∧
    (SGRAttribs.ofAttribs (TCellAttribs.ofRaw 0) 0).fg = 30 ∧
    (SGRAttribs.ofAttribs (TCellAttribs.ofRaw 0) 0).bg = 40 ∧
    (SGRAttribs.ofAttribs (TCellAttribs.ofRaw 0) 0).bold = 22 ∧
    (SGRAttribs.ofAttribs (TCellAttribs.ofRaw 0) 0).italic = 23 ∧
    (SGRAttribs.ofAttribs (TCellAttribs.ofRaw 0) 0).underline = 24 ∧
    (SGRAttribs.ofAttribs (TCellAttribs.ofRaw 0) 0).blink = 25 ∧
    (SGRAttribs.ofAttribs (TCellAttribs.ofRaw 0) 0).reverse = 27 := by
  decide

/-- Claim C6.  The italic code is 3 exactly when the italic flag is set and
`sgrNoItalic` is not in the flags, and 23 otherwise; the underline code is 4
exactly when the underline flag is set and `sgrNoUnderline` is not in the
flags, and 24 otherwise; the reverse code is 7 exactly when the reverse flag
is set, and 27 otherwise, whatever the capability flags are. -/
theorem sgr_italic_underline_reverse (a : TCellAttribs) (flags : Nat) :
    (SGRAttribs.ofAttribs a flags).italic
      = (if a.italic = true ∧ flags &&& sgrNoItalic = 0 then 3 else 23) ∧
    (SGRAttribs.ofAttribs a flags).underline
      = (if a.underline = true ∧ flags &&& sgrNoUnderline = 0 then 4 else 24) ∧
    (SGRAttribs.ofAttribs a flags).reverse = (if a.reverse = true then 7 else 27) :=
  ⟨SGRAttribs.ofAttribs_italic a flags, SGRAttribs.ofAttribs_underline a flags,
   SGRAttribs.ofAttribs_reverse a flags⟩

/-! ## Style attributes: claims C7 and C8 -/

/-- Claim C7.  After `A.attrSet(B)` the low eight bits of `A` (both colour
nibbles with their bright bits) are the ones `A` had before the call and
the high eight bits (`fgDefault`, `bgDefault`, `bold`, `italic`,
`underline`, `reverse` and the two remaining bits) are those of `B`. -/
theorem attrSet_keeps_colors_takes_flags (A B : TCellAttribs) :
    (A.attrSet B).toRaw % 256 = A.toRaw % 256 ∧
    (A.attrSet B).toRaw / 256 = B.toRaw / 256 ∧
    (A.attrSet B).fgGet = A.fgGet ∧ (A.attrSet B).bgGet = A.bgGet ∧
    A.attrSet B =
      { fgBlue := A.fgBlue, fgGreen := A.fgGreen, fgRed := A.fgRed, fgBright := A.fgBright,
        bgBlue := A.bgBlue, bgGreen := A.bgGreen, bgRed := A.bgRed, bgBright := A.bgBright,
        fgDefault := B.fgDefault, bgDefault := B.bgDefault, bold := B.bold,
        italic := B.italic, underline := B.underline, reverse := B.reverse,
        reserved := B.reserved, pad := B.pad } := by
  have hA := TCellAttribs.toNat_fields_le A
  have hB := TCellAttribs.toNat_fields_le B
  have e := TCellAttribs.attrSet_eq A B
  have h1 : (A.attrSet B).toRaw % 256 = A.toRaw % 256 := by
    rw [e]
    simp only [TCellAttribs.toRaw]
    omega
  refine ⟨h1, ?_, ?_, ?_, e⟩
  · rw [e]
    simp only [TCellAttribs.toRaw]
    omega
  · simp only [TCellAttribs.fgGet, h1]
  · simp only [TCellAttribs.bgGet, h1]

/-- Claim C8 as stated fails.  The attribute with raw value `0x0103` has
`fgDefault` set and foreground nibble 3; `fgSet(0x13)` stores the nibble 3
again, so the stored nibble does not change, yet `fgDefault` is cleared.
Likewise `bgSet(0x13)` on the raw value `0x0230` keeps the background
nibble 3 and clears `bgDefault`. -/
theorem colorSet_clears_default_without_change :
    ((TCellAttribs.ofRaw 0x0103).fgSet 0x13).fgGet = (TCellAttribs.ofRaw 0x0103).fgGet ∧
    (TCellAttribs.ofRaw 0x0103).fgDefault = true ∧
    ((TCellAttribs.ofRaw 0x0103).fgSet 0x13).fgDefault = false ∧
    ((TCellAttribs.ofRaw 0x0230).bgSet 0x13).bgGet = (TCellAttribs.ofRaw 0x0230).bgGet ∧
    (TCellAttribs.ofRaw 0x0230).bgDefault = true ∧
    ((TCellAttribs.ofRaw 0x0230).bgSet 0x13).bgDefault = false ∧
    ¬ (((TCellAttribs.ofRaw 0x0103).fgSet 0x13).fgGet = (TCellAttribs.ofRaw 0x0103).fgGet →
        ((TCellAttribs.ofRaw 0x0103).fgSet 0x13).fgDefault
          = (TCellAttribs.ofRaw 0x0103).fgDefault) := by
  decide

/-- Claim C8 as amended.  `fgSet(v)` clears `fgDefault` exactly when the
argument `v`, all eight bits of it, differs from `fgGet()` before the call,
and leaves the flag as it was otherwise.  Hence the flag is cleared
whenever the stored nibble changes, and for `v` in 0..15 it is left as it
was when the stored nibble does not change.  `bgSet` does the same for
`bgDefault` and `bgGet()`. -/
theorem colorSet_default_flag (a : TCellAttribs) (v : Fin 256) :
    ((a.fgSet v).fgDefault = if v.val ≠ a.fgGet then false else a.fgDefault) ∧
    ((a.fgSet v).fgGet ≠ a.fgGet → (a.fgSet v).fgDefault = false) ∧
    (v.val < 16 → (a.fgSet v).fgGet = a.fgGet → (a.fgSet v).fgDefault = a.fgDefault) ∧
    ((a.bgSet v).bgDefault = if v.val ≠ a.bgGet then false else a.bgDefault) ∧
    ((a.bgSet v).bgGet ≠ a.bgGet → (a.bgSet v).bgDefault = false) ∧
    (v.val < 16 → (a.bgSet v).bgGet = a.bgGet → (a.bgSet v).bgDefault = a.bgDefault) := by
  have hf : a.fgGet < 16 := by rw [TCellAttribs.fgGet_eq]; omega
  have hb : a.bgGet < 16 := by rw [TCellAttribs.bgGet_eq]; omega
  refine ⟨TCellAttribs.fgDefault_fgSet a v, ?_, ?_, TCellAttribs.bgDefault_bgSet a v, ?_, ?_⟩
  · intro h
    rw [TCellAttribs.fgGet_fgSet] at h
    have hne : v.val ≠ a.fgGet := by omega
    rw [TCellAttribs.fgDefault_fgSet, if_pos hne]
  · intro hv h
    rw [TCellAttribs.fgGet_fgSet] at h
    have he : ¬ v.val ≠ a.fgGet := by omega
    rw [TCellAttribs.fgDefault_fgSet, if_neg he]
  · intro h
    rw [TCellAttribs.bgGet_bgSet] at h
    have hne : v.val ≠ a.bgGet := by omega
    rw [TCellAttribs.bgDefault_bgSet, if_pos hne]
  · intro hv h
    rw [TCellAttribs.bgGet_bgSet] at h
    have he : ¬ v.val ≠ a.bgGet := by omega
    rw [TCellAttribs.bgDefault_bgSet, if_neg he]

/-- Witness for C8: on the raw value `0x0313` (both default flags set,
both nibbles 3 and 1), setting the nibble 5 clears the flag of that axis,
setting the nibble already stored keeps it. -/
theorem colorSet_default_flag_witness :
    ((TCellAttribs.ofRaw 0x0313).fgSet 5).fgDefault = false ∧
    ((TCellAttribs.ofRaw 0x0313).fgSet 3).fgDefault = (TCellAttribs.ofRaw 0x0313).fgDefault ∧
    ((TCellAttribs.ofRaw 0x0313).bgSet 5).bgDefault = false ∧
    ((TCellAttribs.ofRaw 0x0313).bgSet 1).bgDefault = (TCellAttribs.ofRaw 0x0313).bgDefault :=
  ⟨(colorSet_default_flag (TCellAttribs.ofRaw 0x0313) 5).2.1 (by decide),
   (colorSet_default_flag (TCellAttribs.ofRaw 0x0313) 3).2.2.1 (by decide) (by decide),
   (colorSet_default_flag (TCellAttribs.ofRaw 0x0313) 5).2.2.2.2.1 (by decide),
   (colorSet_default_flag (TCellAttribs.ofRaw 0x0313) 1).2.2.2.2.2 (by decide) (by decide)⟩

/-! ## Glyph runs -/

namespace TCellChar

/-- What the loop of `size` returns when it is started below 12 with enough
fuel: an index above the start, at most 12, with no zero byte strictly
between the start and the result and a zero byte at the result unless the
result is 12. -/
theorem sizeLoop_spec (b : Fin 12 → Fin 256) :
    ∀ (fuel i : Nat), i < 12 → 12 ≤ i + fuel →
      i < sizeLoop b fuel i ∧ sizeLoop b fuel i ≤ 12 ∧
      (∀ j : Fin 12, i < j.val → j.val < sizeLoop b fuel i → b j ≠ 0) ∧
      (∀ j : Fin 12, j.val = sizeLoop b fuel i → b j = 0) := by
  intro fuel
  induction fuel with
  | zero => intro i hi hf; omega
  | succ fuel ih =>
    intro i hi hf
    by_cases h : i + 1 < 12
    · by_cases hb : b ⟨i + 1, h⟩ ≠ 0
      · have e : sizeLoop b (fuel + 1) i = sizeLoop b fuel (i + 1) := by
          simp [sizeLoop, h, hb]
        obtain ⟨h1, h2, h3, h4⟩ := ih (i + 1) h (by omega)
        rw [e]
        refine ⟨by omega, h2, ?_, h4⟩
        intro j hj1 hj2
        by_cases hj : j.val = i + 1
        · have : j = ⟨i + 1, h⟩ := Fin.ext hj
          rw [this]
          exact hb
        · exact h3 j (by omega) hj2
      · have e : sizeLoop b (fuel + 1) i = i + 1 := by
          simp only [sizeLoop, h, hb]
          simp
        rw [e]
        refine ⟨by omega, by omega, ?_, ?_⟩
        · intro j hj1 hj2; omega
        · intro j hj
          have : j = ⟨i + 1, h⟩ := Fin.ext hj
          rw [this]
          exact not_not.mp hb
    · have e : sizeLoop b (fuel + 1) i = i + 1 := by
        simp [sizeLoop, h]
      rw [e]
      refine ⟨by omega, by omega, ?_, ?_⟩
      · intro j hj1 hj2; omega
      · intro j hj
        have := j.isLt
        omega

/-- Twelve evaluations of the loop condition are always enough: once the
fuel covers the distance to index 12, additional fuel does not change the
result. -/
theorem sizeLoop_fuel (b : Fin 12 → Fin 256) :
    ∀ (fuel i k : Nat), 1 ≤ fuel → 12 ≤ i + fuel →
      sizeLoop b (fuel + k) i = sizeLoop b fuel i := by
  intro fuel
  induction fuel with
  | zero => intro i k h1 hf; omega
  | succ fuel ih =>
    intro i k h1 hf
    have e : fuel + 1 + k = (fuel + k) + 1 := by omega
    rw [e]
    by_cases h : i + 1 < 12
    · by_cases hb : b ⟨i + 1, h⟩ ≠ 0
      · have e1 : sizeLoop b (fuel + k + 1) i = sizeLoop b (fuel + k) (i + 1) := by
          simp [sizeLoop, h, hb]
        have e2 : sizeLoop b (fuel + 1) i = sizeLoop b fuel (i + 1) := by
          simp [sizeLoop, h, hb]
        rw [e1, e2]
        exact ih (i + 1) k (by omega) (by omega)
      · simp [sizeLoop, h, hb]
    · simp [sizeLoop, h]

theorem size_spec (c : TCellChar) :
    1 ≤ c.size ∧ c.size ≤ 12 ∧
    (∀ j : Fin 12, 0 < j.val → j.val < c.size → c.bytes j ≠ 0) ∧
    (∀ j : Fin 12, j.val = c.size → c.bytes j = 0) := by
  have h := sizeLoop_spec c.bytes 12 0 (by omega) (by omega)
  exact ⟨h.1, h.2.1, h.2.2.1, h.2.2.2⟩

/-- For a run whose first byte is not zero, `size` is the position of the
first zero byte (12 if there is none). -/
theorem size_eq_of_isFirstZero (c : TCellChar) (L : Nat) (hL : IsFirstZero c L)
    (h1 : 1 ≤ L) : c.size = L := by
  obtain ⟨s1, s2, s3, s4⟩ := size_spec c
  obtain ⟨l1, l2, l3⟩ := hL
  rcases Nat.lt_trichotomy c.size L with h | h | h
  · exact absurd (s4 ⟨c.size, by omega⟩ rfl) (l2 ⟨c.size, by omega⟩ h)
  · exact h
  · exact absurd (l3 ⟨L, by omega⟩ rfl) (s3 ⟨L, by omega⟩ h1 h)

/-- A run whose byte 1 is zero has size 1, whatever byte 0 is. -/
theorem size_eq_one (c : TCellChar) (h : c.bytes 1 = 0) : c.size = 1 := by
  obtain ⟨s1, s2, s3, s4⟩ := size_spec c
  by_contra hne
  exact s3 1 (by decide) (by show 1 < c.size; omega) h

end TCellChar

/-! ## Glyph runs: claims C9 and C10 -/

namespace TCellChar

/-- The remaining capacity `sizeof(bytes) - sz` never wraps around. -/
theorem capacity_eq (c : TCellChar) : (12 + 2 ^ 64 - c.size) % 2 ^ 64 = 12 - c.size := by
  have h := (size_spec c).2.1
  omega

end TCellChar

/-- Claim C9.  When `r.size() + |t|` exceeds 12, `r.append(t)` copies
nothing: the run returned is `r` itself, all twelve bytes as they were. -/
theorem append_overflow_unchanged (r : TCellChar) (t : List (Fin 256))
    (h : r.size + t.length > 12) :
    r.append t = r ∧ ∀ i : Fin 12, (r.append t).bytes i = r.bytes i := by
  have hs := (TCellChar.size_spec r).2.1
  have e : r.append t = r := by
    simp only [TCellChar.append, TCellChar.capacity_eq]
    rw [if_neg]
    omega
  exact ⟨e, fun i => by rw [e]⟩

/-- Witness for C9: the run `"AB"` has size 2, and appending eleven bytes
would need thirteen. -/
theorem append_overflow_unchanged_witness :
    (TCellChar.mk (fun i => ([65, 66] : List (Fin 256)).getD i.val 0)).size
        + (List.replicate 11 (97 : Fin 256)).length > 12 ∧
    (TCellChar.mk (fun i => ([65, 66] : List (Fin 256)).getD i.val 0)).append
        (List.replicate 11 (97 : Fin 256))
      = TCellChar.mk (fun i => ([65, 66] : List (Fin 256)).getD i.val 0) :=
  ⟨by decide,
   (append_overflow_unchanged (TCellChar.mk (fun i => ([65, 66] : List (Fin 256)).getD i.val 0))
      (List.replicate 11 (97 : Fin 256)) (by decide)).1⟩

/-- Claim C10 as stated fails at the empty run.  The empty run is
zero-terminated, its first zero byte is at `L = 0`, the text `"a"` has no
zero byte and fits, yet after `append` byte 0 is still zero and the `'a'`
sits at index 1. -/
theorem append_empty_run_not_at_index_zero :
    TCellChar.IsFirstZero TCellChar.empty 0 ∧
    TCellChar.ZeroTerminated TCellChar.empty ∧
    (∀ b ∈ ([97] : List (Fin 256)), b ≠ 0) ∧
    0 + ([97] : List (Fin 256)).length ≤ 12 ∧
    (TCellChar.empty.append [97]).bytes 0 = 0 ∧
    (TCellChar.empty.append [97]).bytes 1 = 97 ∧
    ¬ (∀ i : Fin 12,
        (TCellChar.empty.append [97]).bytes i = TCellChar.appended TCellChar.empty 0 [97] i) :=
  ⟨by decide, by decide, by simp, by decide, by decide, by decide, by decide⟩

/-- Claim C10 as amended.  Let `r` be zero-terminated or full, `L` the
position of its first zero byte (12 if none), and let the first byte of `r`
be non-zero, that is `1 ≤ L`.  For every text `t` with `L + |t| ≤ 12`,
after `r.append(t)` the bytes of the run are the first `L` bytes of `r`,
followed by the bytes of `t`, followed by zeros.  This holds for every
text, with or without zero bytes. -/
theorem append_fits (r : TCellChar) (L : Nat) (t : List (Fin 256))
    (hL : TCellChar.IsFirstZero r L) (hz : TCellChar.ZeroTerminated r)
    (h1 : 1 ≤ L) (hfit : L + t.length ≤ 12) :
    (r.append t).bytes = TCellChar.appended r L t ∧
    ∀ i : Fin 12, (r.append t).bytes i =
      if i.val < L then r.bytes i
      else if i.val < L + t.length then t.getD (i.val - L) 0
      else 0 := by
  have hs := TCellChar.size_eq_of_isFirstZero r L hL h1
  have hc : t.length ≤ 12 - r.size := by omega
  have key : (r.append t).bytes = TCellChar.appended r L t := by
    simp only [TCellChar.append, TCellChar.capacity_eq, hc, if_true]
    funext i
    simp only [TCellChar.memcpy, TCellChar.appended, hs]
    have hi := i.isLt
    by_cases h1 : i.val < L
    · have : ¬ (L ≤ i.val ∧ i.val < L + t.length) := by omega
      rw [if_neg this, if_pos h1]
    · by_cases h2 : i.val < L + t.length
      · have : L ≤ i.val ∧ i.val < L + t.length := by omega
        rw [if_pos this, if_neg h1, if_pos h2]
      · have : ¬ (L ≤ i.val ∧ i.val < L + t.length) := by omega
        rw [if_neg this, if_neg h1, if_neg h2]
        exact hz ⟨L, by omega⟩ i (hL.2.2 ⟨L, by omega⟩ rfl) (by show L ≤ i.val; omega)
  exact ⟨key, fun i => by rw [key]; rfl⟩

/-- Witness for C10: appending `"cd"` to the run `"AB"`. -/
theorem append_fits_witness :
    ((TCellChar.mk (fun i => ([65, 66] : List (Fin 256)).getD i.val 0)).append [99, 100]).bytes
      = TCellChar.appended (TCellChar.mk (fun i => ([65, 66] : List (Fin 256)).getD i.val 0)) 2
          [99, 100] :=
  (append_fits (TCellChar.mk (fun i => ([65, 66] : List (Fin 256)).getD i.val 0)) 2 [99, 100]
      (by decide) (by decide) (by decide) (by decide)).1

/-! ## Raw-bit round trip -/

namespace TCellAttribs

/-- Reading back the raw value of `ofRaw v` gives the low sixteen bits of `v`. -/
theorem toRaw_ofRaw (v : Nat) : (ofRaw v).toRaw = v % 65536 := by
  simp only [toRaw, ofRaw, toNat_testBit]
  omega

/-- Rebuilding an attribute from its raw value gives the attribute back. -/
theorem ofRaw_toRaw (c : TCellAttribs) : ofRaw c.toRaw = c := by
  simp only [ofRaw, testBit_toRaw_0, testBit_toRaw_1, testBit_toRaw_2, testBit_toRaw_3,
    testBit_toRaw_4, testBit_toRaw_5, testBit_toRaw_6, testBit_toRaw_7, testBit_toRaw_8,
    testBit_toRaw_9, testBit_toRaw_10, testBit_toRaw_11, testBit_toRaw_12, testBit_toRaw_13,
    testBit_toRaw_14, testBit_toRaw_15]

/-- A flag mask with the single bit `k` selects bit `k`. -/
theorem and_two_pow_ne_zero (x k : Nat) : (x &&& 2 ^ k ≠ 0) ↔ x.testBit k = true := by
  constructor
  · intro h
    by_contra hb
    apply h
    apply Nat.eq_of_testBit_eq
    intro i
    simp only [Nat.testBit_and, Nat.testBit_two_pow, Nat.zero_testBit]
    by_cases hk : k = i
    · subst hk; simp [hb]
    · simp [hk]
  · intro hb h
    have := congrArg (fun n => Nat.testBit n k) h
    simp [Nat.testBit_and, Nat.testBit_two_pow, hb] at this

/-- The raw value built by `TCellAttribs(color, flags)`. -/
theorem ofColorFlags_raw (color : Fin 256) (flags : Fin 65536) :
    (color.val ||| (flags.val <<< 8)) % 2 ^ 32 % 65536
      = color.val ||| ((flags.val <<< 8) % 2 ^ 16) := by
  have hc : color.val < 2 ^ 8 := color.isLt
  apply Nat.eq_of_testBit_eq
  intro i
  rw [testBit_mod_65536]
  simp only [Nat.testBit_mod_two_pow, Nat.testBit_or]
  by_cases h16 : i < 16
  · have h32 : i < 32 := by omega
    simp [h16, h32]
  · have hci : color.val.testBit i = false :=
      Nat.testBit_lt_two_pow (Nat.lt_of_lt_of_le hc (Nat.pow_le_pow_right (by decide) (by omega)))
    simp [h16, hci]

end TCellAttribs

/-! ## Glyph runs: assignment and bounds -/

namespace TCellChar

/-- Byte `i` of the little-endian representation is `v / 256 ^ i % 256`. -/
theorem littleEndianBytes_getD :
    ∀ (n v i : Nat), i < n → ((littleEndianBytes n v).getD i 0).val = v / 256 ^ i % 256 := by
  intro n
  induction n with
  | zero => intro v i hi; omega
  | succ n ih =>
    intro v i hi
    cases i with
    | zero => simp [littleEndianBytes]
    | succ i =>
      have h := ih (v / 256) i (by omega)
      simp only [littleEndianBytes, List.getD_cons_succ]
      rw [h, Nat.div_div_eq_div_mul, Nat.pow_succ, Nat.mul_comm]

/-- The instrumented loop returns what the loop of `size` returns. -/
theorem sizeLoopReads_fst (b : Fin 12 → Fin 256) :
    ∀ (fuel i : Nat), (sizeLoopReads b fuel i).1 = sizeLoop b fuel i := by
  intro fuel
  induction fuel with
  | zero => intro i; rfl
  | succ fuel ih =>
    intro i
    by_cases h : i + 1 < 12
    · by_cases hb : b ⟨i + 1, h⟩ ≠ 0
      · simp [sizeLoopReads, sizeLoop, h, hb, ih]
      · simp [sizeLoopReads, sizeLoop, h, hb]
    · simp [sizeLoopReads, sizeLoop, h]

/-- Every index read by the loop of `size` lies above the start value and
below 12. -/
theorem sizeLoopReads_bounds (b : Fin 12 → Fin 256) :
    ∀ (fuel i : Nat), ∀ j ∈ (sizeLoopReads b fuel i).2, i < j ∧ j < 12 := by
  intro fuel
  induction fuel with
  | zero => intro i j hj; simp [sizeLoopReads] at hj
  | succ fuel ih =>
    intro i j hj
    by_cases h : i + 1 < 12
    · by_cases hb : b ⟨i + 1, h⟩ ≠ 0
      · have e : (sizeLoopReads b (fuel + 1) i).2
            = (i + 1) :: (sizeLoopReads b fuel (i + 1)).2 := by
          simp [sizeLoopReads, h, hb]
        rw [e] at hj
        rcases List.mem_cons.mp hj with hj | hj
        · omega
        · have := ih (i + 1) j hj
          omega
      · have e : (sizeLoopReads b (fuel + 1) i).2 = [i + 1] := by
          simp [sizeLoopReads, h, hb]
        rw [e] at hj
        have : j = i + 1 := by simpa using hj
        omega
    · have e : (sizeLoopReads b (fuel + 1) i).2 = [] := by
        simp [sizeLoopReads, h]
      rw [e] at hj
      simp at hj

/-- The bytes of a run after assignment of a 64-bit value: the eight bytes
of the value, least significant first, then zeros. -/
theorem assignCh_bytes (c : TCellChar) (ch : Nat) (hch : ch < 2 ^ 64) (i : Fin 12) :
    ((c.assignCh ch).bytes i).val
      = if i.val < 8 then (ch >>> (8 * i.val)) &&& 0xFF else 0 := by
  have hm : ch % 2 ^ 64 = ch := Nat.mod_eq_of_lt hch
  simp only [assignCh, memcpy, memsetZero, hm]
  by_cases hi : i.val < 8
  · have h1 : 0 ≤ i.val ∧ i.val < 0 + min 12 8 := by
      constructor
      · omega
      · simp; omega
    rw [if_pos h1, if_pos hi, Nat.sub_zero, littleEndianBytes_getD 8 ch i.val hi]
    rw [Nat.shiftRight_eq_div_pow, Nat.pow_mul]
    exact (Nat.and_pow_two_sub_one_eq_mod _ 8).symm
  · have h1 : ¬ (0 ≤ i.val ∧ i.val < 0 + min 12 8) := by
      simp; omega
    rw [if_neg h1, if_neg hi]
    rfl

end TCellChar

namespace TCellAttribs

/-- Bit `8 + k` of the value built by `TCellAttribs(color, flags)` is bit `k`
of `flags`. -/
theorem ofColorFlags_testBit (color : Fin 256) (flags : Fin 65536) (k : Nat) (hk : k < 8) :
    ((color.val ||| (flags.val <<< 8)) % 2 ^ 32).testBit (8 + k) = flags.val.testBit k := by
  have hc : color.val < 2 ^ 8 := color.isLt
  have hci : color.val.testBit (8 + k) = false :=
    Nat.testBit_lt_two_pow (Nat.lt_of_lt_of_le hc (Nat.pow_le_pow_right (by decide) (by omega)))
  have h32 : 8 + k < 32 := by omega
  rw [Nat.testBit_mod_two_pow, Nat.testBit_or, Nat.testBit_shiftLeft, hci]
  simp [h32]

end TCellAttribs

/-! ## Raw bits and colour setters: claims C14, C17 and C18 -/

/-- Claim C14.  Converting a 16-bit value to a `TCellAttribs` and back gives
the value again (and converting an attribute to its raw value and back
gives the attribute); the named fields are fixed bits of the raw value;
and `TCellAttribs(color, flags)` has the raw value
`color | ((flags << 8) mod 2^16)`, so that each of `afFgDefault`,
`afBgDefault`, `afBold`, `afItalic`, `afUnderline`, `afReverse` in `flags`
sets exactly the field of the same name. -/
theorem raw_round_trip_and_layout (v : Fin 65536) (c : TCellAttribs) (color : Fin 256)
    (flags : Fin 65536) :
    (TCellAttribs.ofRaw v.val).toRaw = v.val ∧
    TCellAttribs.ofRaw c.toRaw = c ∧
    (TCellAttribs.ofRaw v.val).fgGet = v.val &&& 0x0F ∧
    (TCellAttribs.ofRaw v.val).bgGet = (v.val >>> 4) &&& 0x0F ∧
    (TCellAttribs.ofRaw v.val).fgDefault = v.val.testBit 8 ∧
    (TCellAttribs.ofRaw v.val).bgDefault = v.val.testBit 9 ∧
    (TCellAttribs.ofRaw v.val).bold = v.val.testBit 10 ∧
    (TCellAttribs.ofRaw v.val).italic = v.val.testBit 11 ∧
    (TCellAttribs.ofRaw v.val).underline = v.val.testBit 12 ∧
    (TCellAttribs.ofRaw v.val).reverse = v.val.testBit 13 ∧
    (TCellAttribs.ofColorFlags color flags).toRaw
      = color.val ||| ((flags.val <<< 8) % 2 ^ 16) ∧
    ((TCellAttribs.ofColorFlags color flags).fgDefault = true
      ↔ flags.val &&& afFgDefault ≠ 0) ∧
    ((TCellAttribs.ofColorFlags color flags).bgDefault = true
      ↔ flags.val &&& afBgDefault ≠ 0) ∧
    ((TCellAttribs.ofColorFlags color flags).bold = true ↔ flags.val &&& afBold ≠ 0) ∧
    ((TCellAttribs.ofColorFlags color flags).italic = true ↔ flags.val &&& afItalic ≠ 0) ∧
    ((TCellAttribs.ofColorFlags color flags).underline = true
      ↔ flags.val &&& afUnderline ≠ 0) ∧
    ((TCellAttribs.ofColorFlags color flags).reverse = true
      ↔ flags.val &&& afReverse ≠ 0) := by
  have hv : v.val < 65536 := v.isLt
  have hraw : (TCellAttribs.ofRaw v.val).toRaw = v.val := by
    rw [TCellAttribs.toRaw_ofRaw]; omega
  refine ⟨hraw, TCellAttribs.ofRaw_toRaw c, ?_, ?_, rfl, rfl, rfl, rfl, rfl, rfl, ?_,
    ?_, ?_, ?_, ?_, ?_, ?_⟩
  · rw [TCellAttribs.fgGet_eq, hraw, and_fifteen]
  · rw [TCellAttribs.bgGet_eq, hraw, and_fifteen, shiftRight_four]
  · show (TCellAttribs.ofRaw _).toRaw = _
    rw [TCellAttribs.toRaw_ofRaw]
    exact TCellAttribs.ofColorFlags_raw color flags
  · rw [show afFgDefault = 2 ^ 0 from rfl, TCellAttribs.and_two_pow_ne_zero]
    rw [← TCellAttribs.ofColorFlags_testBit color flags 0 (by decide)]
    rfl
  · rw [show afBgDefault = 2 ^ 1 from rfl, TCellAttribs.and_two_pow_ne_zero]
    rw [← TCellAttribs.ofColorFlags_testBit color flags 1 (by decide)]
    rfl
  · rw [show afBold = 2 ^ 2 from rfl, TCellAttribs.and_two_pow_ne_zero]
    rw [← TCellAttribs.ofColorFlags_testBit color flags 2 (by decide)]
    rfl
  · rw [show afItalic = 2 ^ 3 from rfl, TCellAttribs.and_two_pow_ne_zero]
    rw [← TCellAttribs.ofColorFlags_testBit color flags 3 (by decide)]
    rfl
  · rw [show afUnderline = 2 ^ 4 from rfl, TCellAttribs.and_two_pow_ne_zero]
    rw [← TCellAttribs.ofColorFlags_testBit color flags 4 (by decide)]
    rfl
  · rw [show afReverse = 2 ^ 5 from rfl, TCellAttribs.and_two_pow_ne_zero]
    rw [← TCellAttribs.ofColorFlags_testBit color flags 5 (by decide)]
    rfl

/-- Claim C17.  The bold code is 1 exactly when the bold flag is set, or the
foreground bright bit is set and `sgrBrightIsBold` is in the flags, and 22
otherwise; the blink code is 5 exactly when the background bright bit is set
and `sgrBrightIsBlink` is in the flags, and 25 otherwise. -/
theorem sgr_bold_blink (a : TCellAttribs) (flags : Nat) :
    (SGRAttribs.ofAttribs a flags).bold
      = (if a.bold = true ∨ (a.fgBright = true ∧ flags &&& sgrBrightIsBold ≠ 0)
          then 1 else 22) ∧
    (SGRAttribs.ofAttribs a flags).blink
      = (if a.bgBright = true ∧ flags &&& sgrBrightIsBlink ≠ 0 then 5 else 25) :=
  ⟨SGRAttribs.ofAttribs_bold a flags, SGRAttribs.ofAttribs_blink a flags⟩

/-- Claim C18.  After `a.fgSet(v)`, `fgGet()` is `v & 0x0F`, a value in
0..15, and the background nibble, `bgDefault`, `bold`, `italic`,
`underline`, `reverse` and the two remaining bits are unchanged; after
`a.bgSet(v)`, `bgGet()` is `v & 0x0F` and the foreground nibble,
`fgDefault` and all other flag bits are unchanged. -/
theorem colorSet_get_and_frame (a : TCellAttribs) (v : Fin 256) :
    ((a.fgSet v).fgGet = v.val &&& 0x0F ∧ (a.fgSet v).fgGet < 16 ∧
      (a.fgSet v).bgGet = a.bgGet ∧
      (a.fgSet v).bgBlue = a.bgBlue ∧ (a.fgSet v).bgGreen = a.bgGreen ∧
      (a.fgSet v).bgRed = a.bgRed ∧ (a.fgSet v).bgBright = a.bgBright ∧
      (a.fgSet v).bgDefault = a.bgDefault ∧ (a.fgSet v).bold = a.bold ∧
      (a.fgSet v).italic = a.italic ∧ (a.fgSet v).underline = a.underline ∧
      (a.fgSet v).reverse = a.reverse ∧ (a.fgSet v).reserved = a.reserved ∧
      (a.fgSet v).pad = a.pad) ∧
    ((a.bgSet v).bgGet = v.val &&& 0x0F ∧ (a.bgSet v).bgGet < 16 ∧
      (a.bgSet v).fgGet = a.fgGet ∧
      (a.bgSet v).fgBlue = a.fgBlue ∧ (a.bgSet v).fgGreen = a.fgGreen ∧
      (a.bgSet v).fgRed = a.fgRed ∧ (a.bgSet v).fgBright = a.fgBright ∧
      (a.bgSet v).fgDefault = a.fgDefault ∧ (a.bgSet v).bold = a.bold ∧
      (a.bgSet v).italic = a.italic ∧ (a.bgSet v).underline = a.underline ∧
      (a.bgSet v).reverse = a.reverse ∧ (a.bgSet v).reserved = a.reserved ∧
      (a.bgSet v).pad = a.pad) := by
  have h := TCellAttribs.toNat_fields_le a
  have hf := TCellAttribs.fgGet_fgSet a v
  have hb := TCellAttribs.bgGet_bgSet a v
  have ef := TCellAttribs.fgSet_eq a v
  have eb := TCellAttribs.bgSet_eq a v
  have h1 : (a.fgSet v).bgGet = a.bgGet := by
    rw [TCellAttribs.bgGet_eq, TCellAttribs.bgGet_eq, ef]
    simp only [TCellAttribs.toRaw]
    have := Bool.toNat_le (v.val.testBit 0)
    have := Bool.toNat_le (v.val.testBit 1)
    have := Bool.toNat_le (v.val.testBit 2)
    have := Bool.toNat_le (v.val.testBit 3)
    omega
  have h2 : (a.bgSet v).fgGet = a.fgGet := by
    rw [TCellAttribs.fgGet_eq, TCellAttribs.fgGet_eq, eb]
    simp only [TCellAttribs.toRaw]
    omega
  refine ⟨⟨by rw [hf, and_fifteen], by rw [hf]; omega, h1, ?_⟩,
    ⟨by rw [hb, and_fifteen], by rw [hb]; omega, h2, ?_⟩⟩
  · rw [ef]
    exact ⟨rfl, rfl, rfl, rfl, rfl, rfl, rfl, rfl, rfl, rfl, rfl⟩
  · rw [eb]
    exact ⟨rfl, rfl, rfl, rfl, rfl, rfl, rfl, rfl, rfl, rfl, rfl⟩

/-! ## Glyph runs: claims C11, C12, C13, C19 and C20 -/

/-- Claim C11 as stated fails: the first zero byte of the all-zero run is
at index 0, yet `size()` returns 1 for it; and for the run `00 41 00 ..`,
whose first zero byte is also at index 0, `size()` returns 2. -/
theorem size_of_empty_run_is_not_zero :
    TCellChar.IsFirstZero TCellChar.empty 0 ∧
    TCellChar.empty.size = 1 ∧
    TCellChar.empty.size ≠ 0 ∧
    TCellChar.IsFirstZero (TCellChar.mk (fun i => if i.val = 1 then 65 else 0)) 0 ∧
    (TCellChar.mk (fun i => if i.val = 1 then 65 else 0)).size = 2 :=
  ⟨by decide, by decide, by decide, by decide, by decide⟩

/-- Claim C11 as amended.  For every glyph run, `size()` returns the index
of the first zero byte among bytes 1..11, or 12 when none of them is zero;
byte 0 is not examined, so the result lies in 1..12.  Hence for every run
whose first byte is not zero `size()` is the position `L` of its first zero
byte (12 if none), and every run whose byte 1 is zero, the all-zero run
among them, has size 1. -/
theorem size_is_first_zero_after_byte_zero (r : TCellChar) :
    1 ≤ r.size ∧ r.size ≤ 12 ∧
    (∀ j : Fin 12, 1 ≤ j.val → j.val < r.size → r.bytes j ≠ 0) ∧
    (∀ j : Fin 12, j.val = r.size → r.bytes j = 0) ∧
    (∀ L : Nat, TCellChar.IsFirstZero r L → 1 ≤ L → r.size = L) ∧
    (r.bytes 1 = 0 → r.size = 1) := by
  obtain ⟨s1, s2, s3, s4⟩ := TCellChar.size_spec r
  exact ⟨s1, s2, fun j h1 h2 => s3 j (by omega) h2, s4,
    fun L hL h1 => TCellChar.size_eq_of_isFirstZero r L hL h1,
    TCellChar.size_eq_one r⟩

/-- Witness for C11: the run `"AB"` has its first zero byte at index 2 and
size 2; the all-zero run has size 1. -/
theorem size_is_first_zero_after_byte_zero_witness :
    (TCellChar.mk (fun i => ([65, 66] : List (Fin 256)).getD i.val 0)).size = 2 ∧
    TCellChar.empty.size = 1 :=
  ⟨(size_is_first_zero_after_byte_zero
      (TCellChar.mk (fun i => ([65, 66] : List (Fin 256)).getD i.val 0))).2.2.2.2.1 2
      (by decide) (by decide),
   (size_is_first_zero_after_byte_zero TCellChar.empty).2.2.2.2.2 (by decide)⟩

/-- Claim C12.  Assigning a text `t` to a run overwrites all twelve bytes:
when `|t| ≤ 12` bytes `0 .. |t| - 1` are those of `t` and the remaining
bytes are zero; when `|t| > 12` all twelve bytes are zero.  The result does
not depend on the previous content of the run. -/
theorem assignText_overwrites (c : TCellChar) (t : List (Fin 256)) :
    (t.length ≤ 12 → ∀ i : Fin 12,
      (c.assignText t).bytes i = if i.val < t.length then t.getD i.val 0 else 0) ∧
    (12 < t.length → ∀ i : Fin 12, (c.assignText t).bytes i = 0) ∧
    (∀ c2 : TCellChar, c.assignText t = c2.assignText t) := by
  refine ⟨?_, ?_, ?_⟩
  · intro h i
    simp only [TCellChar.assignText, if_pos h, TCellChar.memcpy, TCellChar.memsetZero]
    by_cases hi : i.val < t.length
    · simp [hi]
    · simp [hi]
  · intro h i
    have h2 : ¬ t.length ≤ 12 := by omega
    simp only [TCellChar.assignText, if_neg h2, TCellChar.memsetZero]
  · intro c2
    rfl

/-- Witness for C12: the text `"AB"` assigned to a full run, and a text of
thirteen bytes assigned to the same run. -/
theorem assignText_overwrites_witness :
    (∀ i : Fin 12, ((TCellChar.mk (fun _ => 7)).assignText [65, 66]).bytes i
      = if i.val < ([65, 66] : List (Fin 256)).length
          then ([65, 66] : List (Fin 256)).getD i.val 0 else 0) ∧
    (∀ i : Fin 12,
      ((TCellChar.mk (fun _ => 7)).assignText (List.replicate 13 65)).bytes i = 0) :=
  ⟨(assignText_overwrites (TCellChar.mk (fun _ => 7)) [65, 66]).1 (by decide),
   (assignText_overwrites (TCellChar.mk (fun _ => 7)) (List.replicate 13 65)).2.1
      (by decide)⟩

/-- Claim C19.  Assigning a 64-bit value `ch` to a run overwrites all
twelve bytes: byte `i` is `(ch >> 8 * i) & 0xFF` for `i = 0 .. 7`
(little-endian order) and bytes 8..11 are zero, whatever the previous
content of the run was. -/
theorem assignCh_overwrites (c : TCellChar) (ch : Nat) (hch : ch < 2 ^ 64) :
    (∀ i : Fin 12, ((c.assignCh ch).bytes i).val
      = if i.val < 8 then (ch >>> (8 * i.val)) &&& 0xFF else 0) ∧
    (∀ c2 : TCellChar, c.assignCh ch = c2.assignCh ch) := by
  exact ⟨TCellChar.assignCh_bytes c ch hch, fun c2 => rfl⟩

/-- Witness for C19 at `ch = 0x0102`, assigned to a full run. -/
theorem assignCh_overwrites_witness :
    (((TCellChar.mk (fun _ => 7)).assignCh 0x0102).bytes 0).val = 0x02 ∧
    (((TCellChar.mk (fun _ => 7)).assignCh 0x0102).bytes 1).val = 0x01 ∧
    (((TCellChar.mk (fun _ => 7)).assignCh 0x0102).bytes 11).val = 0 :=
  ⟨(assignCh_overwrites (TCellChar.mk (fun _ => 7)) 0x0102 (by decide)).1 0,
   (assignCh_overwrites (TCellChar.mk (fun _ => 7)) 0x0102 (by decide)).1 1,
   (assignCh_overwrites (TCellChar.mk (fun _ => 7)) 0x0102 (by decide)).1 11⟩

/-- Claim C13.  For every legacy cell `p`, `TScreenCell(p)` has glyph byte 0
equal to `p.Char` and glyph bytes 1..11 zero; the raw attribute value is
`p.Attr` itself, so its low byte is `p.Attr` (`fgGet() = p.Attr & 0x0F`,
`bgGet() = p.Attr >> 4`) and every bit of the high byte is clear; and
`extraWidth` is 0.  The first glyph byte and the low attribute byte
therefore give `p` back. -/
theorem ofTScreenCellA_exact (p : TScreenCellA) :
    (TScreenCell.ofTScreenCellA p).Char.bytes 0 = p.Char ∧
    (∀ i : Fin 12, 1 ≤ i.val → (TScreenCell.ofTScreenCellA p).Char.bytes i = 0) ∧
    (TScreenCell.ofTScreenCellA p).Attr.toRaw = p.Attr.val ∧
    (TScreenCell.ofTScreenCellA p).Attr.toRaw % 256 = p.Attr.val ∧
    (TScreenCell.ofTScreenCellA p).Attr.toRaw / 256 = 0 ∧
    (TScreenCell.ofTScreenCellA p).Attr.fgGet = p.Attr.val &&& 0x0F ∧
    (TScreenCell.ofTScreenCellA p).Attr.bgGet = p.Attr.val >>> 4 ∧
    (TScreenCell.ofTScreenCellA p).Attr.fgDefault = false ∧
    (TScreenCell.ofTScreenCellA p).Attr.bgDefault = false ∧
    (TScreenCell.ofTScreenCellA p).Attr.bold = false ∧
    (TScreenCell.ofTScreenCellA p).Attr.italic = false ∧
    (TScreenCell.ofTScreenCellA p).Attr.underline = false ∧
    (TScreenCell.ofTScreenCellA p).Attr.reverse = false ∧
    (TScreenCell.ofTScreenCellA p).Attr.reserved = false ∧
    (TScreenCell.ofTScreenCellA p).Attr.pad = false ∧
    (TScreenCell.ofTScreenCellA p).extraWidth = 0 ∧
    TScreenCellA.mk ((TScreenCell.ofTScreenCellA p).Char.bytes 0)
      ⟨(TScreenCell.ofTScreenCellA p).Attr.toRaw % 256, Nat.mod_lt _ (by decide)⟩ = p := by
  obtain ⟨ch, attr⟩ := p
  have hch : ch.val < 2 ^ 64 := Nat.lt_of_lt_of_le ch.isLt (by decide)
  have hat : attr.val < 256 := attr.isLt
  have hbytes := TCellChar.assignCh_bytes TCellChar.empty ch.val hch
  have hraw : (TCellAttribs.ofRaw attr.val).toRaw = attr.val := by
    rw [TCellAttribs.toRaw_ofRaw]; omega
  have hbit : ∀ k, 8 ≤ k → attr.val.testBit k = false := fun k hk =>
    Nat.testBit_lt_two_pow (Nat.lt_of_lt_of_le hat
      (by rw [show (256 : Nat) = 2 ^ 8 from rfl]; exact Nat.pow_le_pow_right (by decide) hk))
  have hb0 : (TCellChar.empty.assignCh ch.val).bytes 0 = ch := by
    apply Fin.ext
    have := hbytes 0
    simp at this
    rw [this]
    have := Nat.and_pow_two_sub_one_eq_mod ch.val 8
    simp at this
    rw [this]
    exact Nat.mod_eq_of_lt ch.isLt
  refine ⟨hb0, ?_, hraw, ?_, ?_, ?_, ?_, hbit 8 (by decide), hbit 9 (by decide),
    hbit 10 (by decide), hbit 11 (by decide), hbit 12 (by decide), hbit 13 (by decide),
    hbit 14 (by decide), hbit 15 (by decide), rfl, ?_⟩
  · intro i hi
    apply Fin.ext
    have h := hbytes i
    show ((TCellChar.empty.assignCh ch.val).bytes i).val = 0
    rw [h]
    by_cases h8 : i.val < 8
    · rw [if_pos h8, Nat.shiftRight_eq_div_pow]
      have : ch.val / 2 ^ (8 * i.val) = 0 := by
        apply Nat.div_eq_of_lt
        exact Nat.lt_of_lt_of_le ch.isLt
          (by rw [show (256 : Nat) = 2 ^ 8 from rfl]
              exact Nat.pow_le_pow_right (by decide) (by omega))
      rw [this]
      rfl
    · rw [if_neg h8]
  · show (TCellAttribs.ofRaw attr.val).toRaw % 256 = attr.val
    rw [hraw]; omega
  · show (TCellAttribs.ofRaw attr.val).toRaw / 256 = 0
    rw [hraw]; omega
  · show (TCellAttribs.ofRaw attr.val).fgGet = attr.val &&& 0x0F
    rw [TCellAttribs.fgGet_eq, hraw, and_fifteen]
  · show (TCellAttribs.ofRaw attr.val).bgGet = attr.val >>> 4
    rw [TCellAttribs.bgGet_eq, hraw, shiftRight_four]; omega
  · show TScreenCellA.mk ((TCellChar.empty.assignCh ch.val).bytes 0)
      ⟨(TCellAttribs.ofRaw attr.val).toRaw % 256, _⟩ = _
    congr 1
    apply Fin.ext
    show (TCellAttribs.ofRaw attr.val).toRaw % 256 = attr.val
    rw [hraw]; omega

/-- Witness for C13: the legacy cell with `Char = 0x41` and `Attr = 0x1F`. -/
theorem ofTScreenCellA_exact_witness :
    (TScreenCell.ofTScreenCellA (TScreenCellA.mk 0x41 0x1F)).Char.bytes 0 = 0x41 ∧
    (TScreenCell.ofTScreenCellA (TScreenCellA.mk 0x41 0x1F)).Char.bytes 1 = 0 ∧
    (TScreenCell.ofTScreenCellA (TScreenCellA.mk 0x41 0x1F)).Attr.toRaw = 0x1F :=
  ⟨(ofTScreenCellA_exact (TScreenCellA.mk 0x41 0x1F)).1,
   (ofTScreenCellA_exact (TScreenCellA.mk 0x41 0x1F)).2.1 1 (by decide),
   (ofTScreenCellA_exact (TScreenCellA.mk 0x41 0x1F)).2.2.1⟩

/-- Claim C20.  The loop of `size` evaluates `bytes[i]` only at indices
1..11 and returns a value in 1..12, so `sizeof(bytes) - size()` does not
wrap around; whenever `append` copies, `size() + |t| ≤ 12`, and whenever
assignment from text copies, `|t| ≤ 12`. -/
theorem glyph_storage_in_bounds (r : TCellChar) (t : List (Fin 256)) :
    (TCellChar.sizeLoopReads r.bytes 12 0).1 = r.size ∧
    (∀ j ∈ (TCellChar.sizeLoopReads r.bytes 12 0).2, 1 ≤ j ∧ j ≤ 11) ∧
    1 ≤ r.size ∧ r.size ≤ 12 ∧
    (12 + 2 ^ 64 - r.size) % 2 ^ 64 = 12 - r.size ∧
    (TCellChar.appendCopies r t → r.size + t.length ≤ 12) ∧
    (TCellChar.assignTextCopies t → 0 + t.length ≤ 12) := by
  obtain ⟨s1, s2, -, -⟩ := TCellChar.size_spec r
  refine ⟨TCellChar.sizeLoopReads_fst r.bytes 12 0, ?_, s1, s2, TCellChar.capacity_eq r,
    ?_, ?_⟩
  · intro j hj
    have := TCellChar.sizeLoopReads_bounds r.bytes 12 0 j hj
    omega
  · intro h
    unfold TCellChar.appendCopies at h
    rw [TCellChar.capacity_eq] at h
    omega
  · intro h
    unfold TCellChar.assignTextCopies at h
    omega

/-- Witness for C20: the run `"AB"` and a text of ten bytes. -/
theorem glyph_storage_in_bounds_witness :
    (TCellChar.mk (fun i => ([65, 66] : List (Fin 256)).getD i.val 0)).size
        + (List.replicate 10 (97 : Fin 256)).length ≤ 12 ∧
    0 + (List.replicate 10 (97 : Fin 256)).length ≤ 12 :=
  ⟨(glyph_storage_in_bounds (TCellChar.mk (fun i => ([65, 66] : List (Fin 256)).getD i.val 0))
      (List.replicate 10 97)).2.2.2.2.2.1 (by decide),
   (glyph_storage_in_bounds (TCellChar.mk (fun i => ([65, 66] : List (Fin 256)).getD i.val 0))
      (List.replicate 10 97)).2.2.2.2.2.2 (by decide)⟩

/-! ## BufferedDisplay: the ordered dirty set -/

namespace BufferedDisplay

theorem rowMajorLt_irrefl (a : Nat × Nat) : ¬ rowMajorLt a a := by
  unfold rowMajorLt; omega

theorem rowMajorLt_trans {a b c : Nat × Nat} (h1 : rowMajorLt a b) (h2 : rowMajorLt b c) :
    rowMajorLt a c := by
  unfold rowMajorLt at *; omega

theorem rowMajorLt_asymm {a b : Nat × Nat} (h1 : rowMajorLt a b) : ¬ rowMajorLt b a := by
  unfold rowMajorLt at *; omega

theorem rowMajorLt_total {a b : Nat × Nat} (h1 : ¬ rowMajorLt a b) (h2 : a ≠ b) :
    rowMajorLt b a := by
  obtain ⟨a1, a2⟩ := a
  obtain ⟨b1, b2⟩ := b
  have h3 : ¬ (a1 = b1 ∧ a2 = b2) := fun h => h2 (by rw [h.1, h.2])
  unfold rowMajorLt at *
  simp only at *
  omega

theorem mem_insertChange (c a : Nat × Nat) (l : List (Nat × Nat)) :
    a ∈ insertChange c l ↔ a = c ∨ a ∈ l := by
  induction l with
  | nil => simp [insertChange]
  | cons d ds ih =>
    by_cases h1 : c = d
    · subst h1
      simp [insertChange]
    · by_cases h2 : rowMajorLt c d
      · simp [insertChange, h1, h2]
      · simp only [insertChange, h1, h2, if_false, List.mem_cons, ih]
        tauto

theorem insertChange_sorted (c : Nat × Nat) (l : List (Nat × Nat))
    (hl : l.Pairwise rowMajorLt) : (insertChange c l).Pairwise rowMajorLt := by
  induction l with
  | nil => simp [insertChange]
  | cons d ds ih =>
    have hd := List.pairwise_cons.mp hl
    by_cases h1 : c = d
    · simp only [insertChange, h1, if_true]
      exact hl
    · by_cases h2 : rowMajorLt c d
      · simp only [insertChange, h1, h2, if_true, if_false]
        refine List.pairwise_cons.mpr ⟨?_, hl⟩
        intro a ha
        rcases List.mem_cons.mp ha with ha | ha
        · rw [ha]; exact h2
        · exact rowMajorLt_trans h2 (hd.1 a ha)
      · simp only [insertChange, h1, h2, if_false]
        refine List.pairwise_cons.mpr ⟨?_, ih hd.2⟩
        intro a ha
        rcases (mem_insertChange c a ds).mp ha with ha | ha
        · rw [ha]; exact rowMajorLt_total h2 h1
        · exact hd.1 a ha

/-- Inserting a coordinate that is already in the sorted dirty set changes
nothing; inserting into the empty set gives the singleton. -/
theorem insertChange_of_mem (c : Nat × Nat) (l : List (Nat × Nat))
    (hl : l.Pairwise rowMajorLt) (hc : c ∈ l) : insertChange c l = l := by
  induction l with
  | nil => simp at hc
  | cons d ds ih =>
    have hd := List.pairwise_cons.mp hl
    by_cases h1 : c = d
    · simp [insertChange, h1]
    · have hcds : c ∈ ds := by
        rcases List.mem_cons.mp hc with h | h
        · exact absurd h h1
        · exact h
      have h2 : ¬ rowMajorLt c d := rowMajorLt_asymm (hd.1 c hcds)
      simp only [insertChange, h1, h2, if_false]
      rw [ih hd.2 hcds]

theorem foldl_insertChange_sorted (l acc : List (Nat × Nat))
    (hacc : acc.Pairwise rowMajorLt) :
    (l.foldl (fun acc c => insertChange c acc) acc).Pairwise rowMajorLt := by
  induction l generalizing acc with
  | nil => exact hacc
  | cons c cs ih => exact ih (insertChange c acc) (insertChange_sorted c acc hacc)

theorem mem_foldl_insertChange (l acc : List (Nat × Nat)) (a : Nat × Nat) :
    a ∈ l.foldl (fun acc c => insertChange c acc) acc ↔ a ∈ acc ∨ a ∈ l := by
  induction l generalizing acc with
  | nil => simp
  | cons c cs ih =>
    simp only [List.foldl_cons, ih, mem_insertChange, List.mem_cons]
    tauto

theorem mem_rowMajor (w h : Nat) (a : Nat × Nat) : a ∈ rowMajor w h ↔ a.1 < w ∧ a.2 < h := by
  obtain ⟨x, y⟩ := a
  simp only [rowMajor, List.mem_flatMap, List.mem_map, List.mem_range, Prod.mk.injEq]
  constructor
  · rintro ⟨y', hy, x', hx, rfl, rfl⟩
    exact ⟨hx, hy⟩
  · rintro ⟨hx, hy⟩
    exact ⟨y, hy, x, hx, rfl, rfl⟩

theorem mem_columnMajor (w h : Nat) (a : Nat × Nat) :
    a ∈ columnMajor w h ↔ a.1 < w ∧ a.2 < h := by
  obtain ⟨x, y⟩ := a
  simp only [columnMajor, List.mem_flatMap, List.mem_map, List.mem_range, Prod.mk.injEq]
  constructor
  · rintro ⟨x', hx, y', hy, rfl, rfl⟩
    exact ⟨hx, hy⟩
  · rintro ⟨hx, hy⟩
    exact ⟨x, hx, y, hy, rfl, rfl⟩

theorem rowMajor_sorted (w h : Nat) : (rowMajor w h).Pairwise rowMajorLt := by
  unfold rowMajor
  rw [List.pairwise_flatMap]
  constructor
  · intro y _
    rw [List.pairwise_map]
    exact (List.pairwise_lt_range w).imp (fun hab => Or.inr ⟨rfl, hab⟩)
  · refine (List.pairwise_lt_range h).imp ?_
    intro y1 y2 hy a ha b hb
    obtain ⟨x1, _, rfl⟩ := List.mem_map.mp ha
    obtain ⟨x2, _, rfl⟩ := List.mem_map.mp hb
    exact Or.inl hy

theorem length_rowMajor (w h : Nat) : (rowMajor w h).length = w * h := by
  unfold rowMajor
  induction h with
  | zero => simp
  | succ h ih =>
    rw [List.range_succ, List.flatMap_append, List.length_append, ih]
    simp [Nat.mul_succ]

/-- Marking every coordinate of a `w` by `h` screen, in whatever order,
leaves the dirty set in row-major order. -/
theorem foldl_insertChange_eq_rowMajor (w h : Nat) (l : List (Nat × Nat))
    (hl : ∀ a, a ∈ l ↔ a.1 < w ∧ a.2 < h) :
    l.foldl (fun acc c => insertChange c acc) [] = rowMajor w h := by
  have s1 := foldl_insertChange_sorted l [] List.Pairwise.nil
  have s2 := rowMajor_sorted w h
  apply List.eq_of_perm_of_sorted _ s1 s2
  apply (List.perm_ext_iff_of_nodup (List.Sorted.nodup s1) (List.Sorted.nodup s2)).mpr
  intro a
  rw [mem_foldl_insertChange, mem_rowMajor, hl]
  simp

end BufferedDisplay

/-! ## BufferedDisplay: writes and flushes -/

namespace BufferedDisplay

theorem writeCharCalls_append (a b : List Hook) :
    writeCharCalls (a ++ b) = writeCharCalls a ++ writeCharCalls b := by
  induction a with
  | nil => rfl
  | cons x xs ih =>
    cases x <;> simp [writeCharCalls, ih]

theorem writeCharCalls_flushCells (s : State) (prev : Option (Nat × Nat))
    (l : List (Nat × Nat)) : writeCharCalls (flushCells s prev l) = l := by
  induction l generalizing prev with
  | nil => cases prev <;> rfl
  | cons c cs ih =>
    obtain ⟨x, y⟩ := c
    simp only [flushCells]
    rw [writeCharCalls_append]
    split <;> simp [writeCharCalls, ih]

theorem writeCharCalls_flushScreen (s : State) :
    writeCharCalls (flushScreen s).2 = s.changes := by
  unfold flushScreen
  split
  · rename_i h
    rw [h.1]
    rfl
  · simp only [writeCharCalls_append, writeCharCalls_flushCells]
    split <;> simp [writeCharCalls]

theorem flushScreen_changes (s : State) : (flushScreen s).1.changes = [] := by
  unfold flushScreen
  split
  · rename_i h
    exact h.1
  · rfl

theorem writeCell_same (s : State) (x y : Nat) :
    writeCell s x y (s.charBuffer (x, y), s.attrBuffer (x, y)) = s := by
  simp [writeCell]

theorem writeCell_of_ne (s : State) (x y : Nat) (cell : Fin 256 × Fin 65536)
    (h : cell.1 ≠ s.charBuffer (x, y) ∨ cell.2 ≠ s.attrBuffer (x, y)) :
    writeCell s x y cell =
      { s with
        charBuffer := Function.update s.charBuffer (x, y) cell.1
        attrBuffer := Function.update s.attrBuffer (x, y) cell.2
        changes := insertChange (x, y) s.changes } := by
  unfold writeCell
  rw [if_pos h]

theorem writeCell_sorted (s : State) (x y : Nat) (cell : Fin 256 × Fin 65536)
    (hs : s.changes.Pairwise rowMajorLt) :
    (writeCell s x y cell).changes.Pairwise rowMajorLt := by
  unfold writeCell
  split
  · exact insertChange_sorted (x, y) s.changes hs
  · exact hs

theorem writeCells_sorted (cells : List (Fin 256 × Fin 65536)) (s : State) (x y : Nat)
    (hs : s.changes.Pairwise rowMajorLt) :
    (writeCells s x y cells).changes.Pairwise rowMajorLt := by
  induction cells generalizing s x with
  | nil => exact hs
  | cons c cs ih => exact ih (writeCell s x y c) (x + 1) (writeCell_sorted s x y c hs)

theorem initBuffer_changes (s : State) (w h : Nat) :
    (initBuffer s w h).changes = rowMajor w h :=
  foldl_insertChange_eq_rowMajor w h (columnMajor w h) (mem_columnMajor w h)

end BufferedDisplay

/-- C15: `flushScreen` calls the write-char hook exactly once for each dirty
coordinate, in the order of the dirty set, which `initBuffer` and
`screenWrite` keep in row-major order (ascending row, then ascending
column); after `initBuffer` on a `w` by `h` screen one flush makes exactly
`w * h` write-char calls, at the coordinates of the screen in row-major
order; and on a BufferedDisplay.flushed screen, writes at (5,3), (1,1), (1,3) that change
the recorded cells, followed by one flush, produce write-char calls at
(1,1), (1,3), (5,3) in that order. -/
theorem flush_visits_row_major (s : BufferedDisplay.State) (w h : Nat) (c1 c2 c3 : Fin 256 × Fin 65536) :
    BufferedDisplay.writeCharCalls (BufferedDisplay.flushScreen s).2 = s.changes ∧
    (BufferedDisplay.flushScreen s).1.changes = [] ∧
    (s.changes.Pairwise BufferedDisplay.rowMajorLt →
      (BufferedDisplay.writeCharCalls (BufferedDisplay.flushScreen s).2).Pairwise BufferedDisplay.rowMajorLt ∧
      (BufferedDisplay.writeCharCalls (BufferedDisplay.flushScreen s).2).Nodup) ∧
    (∀ x y cells s1, s.changes.Pairwise BufferedDisplay.rowMajorLt →
      BufferedDisplay.screenWrite s x y cells = some s1 → s1.changes.Pairwise BufferedDisplay.rowMajorLt) ∧
    BufferedDisplay.writeCharCalls (BufferedDisplay.flushScreen (BufferedDisplay.initBuffer s w h)).2 = BufferedDisplay.rowMajor w h ∧
    (BufferedDisplay.writeCharCalls (BufferedDisplay.flushScreen (BufferedDisplay.initBuffer s w h)).2).length = w * h ∧
    (BufferedDisplay.rowMajor w h).Pairwise BufferedDisplay.rowMajorLt ∧
    (∀ a, a ∈ BufferedDisplay.rowMajor w h ↔ a.1 < w ∧ a.2 < h) ∧
    (s.changes = [] → 5 < s.width → 3 < s.height →
      (c1.1 ≠ s.charBuffer (5, 3) ∨ c1.2 ≠ s.attrBuffer (5, 3)) →
      (c2.1 ≠ s.charBuffer (1, 1) ∨ c2.2 ≠ s.attrBuffer (1, 1)) →
      (c3.1 ≠ s.charBuffer (1, 3) ∨ c3.2 ≠ s.attrBuffer (1, 3)) →
      ∃ s1 s2 s3, BufferedDisplay.screenWrite s 5 3 [c1] = some s1 ∧
        BufferedDisplay.screenWrite s1 1 1 [c2] = some s2 ∧
        BufferedDisplay.screenWrite s2 1 3 [c3] = some s3 ∧
        BufferedDisplay.writeCharCalls (BufferedDisplay.flushScreen s3).2 = [(1, 1), (1, 3), (5, 3)]) := by
  refine ⟨BufferedDisplay.writeCharCalls_flushScreen s, BufferedDisplay.flushScreen_changes s, ?_, ?_, ?_, ?_,
    BufferedDisplay.rowMajor_sorted w h, BufferedDisplay.mem_rowMajor w h, ?_⟩
  · intro hs
    rw [BufferedDisplay.writeCharCalls_flushScreen]
    exact ⟨hs, List.Sorted.nodup hs⟩
  · intro x y cells s1 hs hw
    unfold BufferedDisplay.screenWrite at hw
    split at hw
    · cases hw
      exact BufferedDisplay.writeCells_sorted cells s x y hs
    · cases hw
  · rw [BufferedDisplay.writeCharCalls_flushScreen, BufferedDisplay.initBuffer_changes]
  · rw [BufferedDisplay.writeCharCalls_flushScreen, BufferedDisplay.initBuffer_changes, BufferedDisplay.length_rowMajor]
  · intro hc hw hh h1 h2 h3
    have e1 := BufferedDisplay.writeCell_of_ne s 5 3 c1 h1
    have h2' : c2.1 ≠ (BufferedDisplay.writeCell s 5 3 c1).charBuffer (1, 1) ∨
        c2.2 ≠ (BufferedDisplay.writeCell s 5 3 c1).attrBuffer (1, 1) := by
      rw [e1]
      simpa using h2
    have e2 := BufferedDisplay.writeCell_of_ne (BufferedDisplay.writeCell s 5 3 c1) 1 1 c2 h2'
    have h3' : c3.1 ≠ (BufferedDisplay.writeCell (BufferedDisplay.writeCell s 5 3 c1) 1 1 c2).charBuffer (1, 3) ∨
        c3.2 ≠ (BufferedDisplay.writeCell (BufferedDisplay.writeCell s 5 3 c1) 1 1 c2).attrBuffer (1, 3) := by
      rw [e2, e1]
      simpa using h3
    have e3 := BufferedDisplay.writeCell_of_ne (BufferedDisplay.writeCell (BufferedDisplay.writeCell s 5 3 c1) 1 1 c2) 1 3 c3 h3'
    have w1 : (BufferedDisplay.writeCell s 5 3 c1).width = s.width := by rw [e1]
    have w2 : (BufferedDisplay.writeCell (BufferedDisplay.writeCell s 5 3 c1) 1 1 c2).width = s.width := by rw [e2, e1]
    have g1 : (BufferedDisplay.writeCell s 5 3 c1).height = s.height := by rw [e1]
    have g2 : (BufferedDisplay.writeCell (BufferedDisplay.writeCell s 5 3 c1) 1 1 c2).height = s.height := by rw [e2, e1]
    refine ⟨BufferedDisplay.writeCell s 5 3 c1, BufferedDisplay.writeCell (BufferedDisplay.writeCell s 5 3 c1) 1 1 c2,
      BufferedDisplay.writeCell (BufferedDisplay.writeCell (BufferedDisplay.writeCell s 5 3 c1) 1 1 c2) 1 3 c3, ?_, ?_, ?_, ?_⟩
    · unfold BufferedDisplay.screenWrite
      rw [if_pos ⟨hh, by simp only [List.length_singleton]; omega⟩]
      rfl
    · unfold BufferedDisplay.screenWrite
      rw [if_pos ⟨by rw [g1]; omega, by rw [w1]; simp only [List.length_singleton]; omega⟩]
      rfl
    · unfold BufferedDisplay.screenWrite
      rw [if_pos ⟨by rw [g2]; omega, by rw [w2]; simp only [List.length_singleton]; omega⟩]
      rfl
    · rw [BufferedDisplay.writeCharCalls_flushScreen, e3, e2, e1]
      show BufferedDisplay.insertChange (1, 3) (BufferedDisplay.insertChange (1, 1) (BufferedDisplay.insertChange (5, 3) s.changes)) = _
      rw [hc]
      decide

/-- Witness for C15: the BufferedDisplay.flushed 8 by 4 screen and three cells that differ
from the recorded ones. -/
theorem flush_visits_row_major_witness :
    ((BufferedDisplay.writeCharCalls (BufferedDisplay.flushScreen (BufferedDisplay.flushed 8 4)).2).Pairwise BufferedDisplay.rowMajorLt ∧
      (BufferedDisplay.writeCharCalls (BufferedDisplay.flushScreen (BufferedDisplay.flushed 8 4)).2).Nodup) ∧
    (∀ s1, BufferedDisplay.screenWrite (BufferedDisplay.flushed 8 4) 2 1 [(65, 7), (66, 7)] = some s1 →
      s1.changes.Pairwise BufferedDisplay.rowMajorLt) ∧
    ∃ s1 s2 s3, BufferedDisplay.screenWrite (BufferedDisplay.flushed 8 4) 5 3 [(65, 7)] = some s1 ∧
      BufferedDisplay.screenWrite s1 1 1 [(66, 7)] = some s2 ∧
      BufferedDisplay.screenWrite s2 1 3 [(67, 7)] = some s3 ∧
      BufferedDisplay.writeCharCalls (BufferedDisplay.flushScreen s3).2 = [(1, 1), (1, 3), (5, 3)] :=
  ⟨(flush_visits_row_major (BufferedDisplay.flushed 8 4) 8 4 (65, 7) (66, 7) (67, 7)).2.2.1
      (by rw [show (BufferedDisplay.flushed 8 4).changes = [] from BufferedDisplay.flushScreen_changes _]; exact List.Pairwise.nil),
   fun s1 => (flush_visits_row_major (BufferedDisplay.flushed 8 4) 8 4 (65, 7) (66, 7) (67, 7)).2.2.2.1
      2 1 [(65, 7), (66, 7)] s1
      (by rw [show (BufferedDisplay.flushed 8 4).changes = [] from BufferedDisplay.flushScreen_changes _]; exact List.Pairwise.nil),
   (flush_visits_row_major (BufferedDisplay.flushed 8 4) 8 4 (65, 7) (66, 7) (67, 7)).2.2.2.2.2.2.2.2
      (BufferedDisplay.flushScreen_changes _) (by decide) (by decide) (by decide) (by decide) (by decide)⟩

/-- C16: for every in-bounds cell `(x, y)` of a display state, a
`screenWrite` that supplies the glyph and attribute already recorded for
that cell succeeds and returns the state unchanged: both grids and the dirty
set are as before.  If the cell was not dirty, in particular in a BufferedDisplay.flushed
state whose dirty set is empty, the next `flushScreen` issues no write-char
call for it. -/
theorem screenWrite_synchronized_is_noop (s : BufferedDisplay.State) (x y : Nat)
    (hx : x < s.width) (hy : y < s.height) :
    BufferedDisplay.screenWrite s x y [(s.charBuffer (x, y), s.attrBuffer (x, y))] = some s ∧
    (∀ s1, BufferedDisplay.screenWrite s x y [(s.charBuffer (x, y), s.attrBuffer (x, y))] = some s1 →
      s1.charBuffer = s.charBuffer ∧ s1.attrBuffer = s.attrBuffer ∧
      s1.changes = s.changes ∧
      ((x, y) ∉ s.changes → (x, y) ∉ BufferedDisplay.writeCharCalls (BufferedDisplay.flushScreen s1).2) ∧
      (s.changes = [] → BufferedDisplay.writeCharCalls (BufferedDisplay.flushScreen s1).2 = [])) := by
  have e : BufferedDisplay.screenWrite s x y [(s.charBuffer (x, y), s.attrBuffer (x, y))] = some s := by
    unfold BufferedDisplay.screenWrite
    rw [if_pos ⟨hy, by simp only [List.length_singleton]; omega⟩]
    show some (BufferedDisplay.writeCell s x y (s.charBuffer (x, y), s.attrBuffer (x, y))) = some s
    rw [BufferedDisplay.writeCell_same]
  refine ⟨e, ?_⟩
  intro s1 h1
  rw [e] at h1
  cases h1
  refine ⟨rfl, rfl, rfl, ?_, ?_⟩
  · intro hn
    rw [BufferedDisplay.writeCharCalls_flushScreen]
    exact hn
  · intro hn
    rw [BufferedDisplay.writeCharCalls_flushScreen]
    exact hn

/-- Witness for C16: the cell (5, 3) of the BufferedDisplay.flushed 8 by 4 screen. -/
theorem screenWrite_synchronized_is_noop_witness :
    BufferedDisplay.screenWrite (BufferedDisplay.flushed 8 4) 5 3
      [((BufferedDisplay.flushed 8 4).charBuffer (5, 3), (BufferedDisplay.flushed 8 4).attrBuffer (5, 3))]
      = some (BufferedDisplay.flushed 8 4) ∧
    BufferedDisplay.writeCharCalls (BufferedDisplay.flushScreen (BufferedDisplay.flushed 8 4)).2 = [] :=
  ⟨(screenWrite_synchronized_is_noop (BufferedDisplay.flushed 8 4) 5 3 (by decide) (by decide)).1,
   ((screenWrite_synchronized_is_noop (BufferedDisplay.flushed 8 4) 5 3 (by decide) (by decide)).2
      (BufferedDisplay.flushed 8 4)
      (screenWrite_synchronized_is_noop (BufferedDisplay.flushed 8 4) 5 3 (by decide) (by decide)).1).2.2.2.2
      (BufferedDisplay.flushScreen_changes _)⟩
